/-
  Verification of the FCC tetra-spheres puzzle solver against its
  natural-language specification.

  Shallow embedding of:
    - src/external/solver/solver_engine.py  (SolverEngine: grid, fits,
      zobrist transposition table, one-step depth-first search),
    - src/external/solver/solver.py         (driver: build_engine,
      run_once_with_engine, canonicalization / CID-SID helpers,
      run-control poll),
    - src/engine/components.py              (generate_transforms).

  Modelling conventions, stated once here and referenced from doc comments:
    * Python arbitrary-precision ints are Nat (occupancy bitmasks, masks)
      or Int (lattice coordinates); Python float heuristic weights
      1.0 / 0.8 / 0.8 are exact rationals (their values are never needed
      by the claims proved here, only the shape of the computation).
    * The wall clock (time.monotonic) is modelled as natural-number ticks:
      a schedule function gives the clock increment of each loop iteration,
      and the 5.0-second log period is 5 ticks.  The max(1e-6, dt) guard
      of the attempts-per-second computation becomes max 1 dt on ticks.
    * Python's Mersenne-Twister PRNG is not reimplemented: the 64-bit
      getrandbits stream is an uninterpreted parameter (seed and count in,
      list of values out), and random.Random(seed).shuffle is an
      uninterpreted oracle that is assumed to permute its input.
    * Python dicts whose iteration order is never observed are modelled as
      association lists; the transposition table, whose insertion order is
      observed by the trimming policy, is an insertion-ordered list.
    * Write-only statistics of SolverEngine (histograms, anchor_seen,
      transitions, last_anchor, stat_* counters) are not carried: no other
      computation of the program reads them.
-/
import Mathlib

/-- An FCC lattice cell, the Python tuple (i, j, k) of ints. -/
abbrev Cell := ℤ × ℤ × ℤ

/-- Python indexing v[i] for a 3-tuple (used as v[p[0]] etc. by
_apply_rot; the rotation tables only ever index with 0, 1, 2). -/
def getc (v : Cell) (i : ℕ) : ℤ :=
  if i = 0 then v.1 else if i = 1 then v.2.1 else v.2.2

/-- Python indexing p[i] for a permutation triple of 0,1,2. -/
def permGet (p : ℕ × ℕ × ℕ) (i : ℕ) : ℕ :=
  if i = 0 then p.1 else if i = 1 then p.2.1 else p.2.2

/-- Python tuple comparison (i,j,k) <= (i',j',k') (lexicographic). -/
def cellLeB (a b : Cell) : Bool :=
  if a.1 < b.1 then true else if b.1 < a.1 then false
  else if a.2.1 < b.2.1 then true else if b.2.1 < a.2.1 then false
  else a.2.2 ≤ b.2.2

def cellLeR (a b : Cell) : Prop := cellLeB a b = true

instance : DecidableRel cellLeR := fun a b => instDecidableEqBool (cellLeB a b) true

/-- Python sorted(...) on lists of int triples. -/
def sortCells (l : List Cell) : List Cell := List.insertionSort cellLeR l

instance : IsTotal Cell cellLeR :=
  ⟨by
    intro a b
    simp only [cellLeR, cellLeB]
    split_ifs <;> simp <;> omega⟩

instance : IsTrans Cell cellLeR :=
  ⟨by
    intro a b c hab hbc
    simp only [cellLeR, cellLeB] at hab hbc ⊢
    split_ifs at hab hbc ⊢ <;> simp_all <;> omega⟩

instance : IsAntisymm Cell cellLeR :=
  ⟨by
    intro a b hab hba
    obtain ⟨a1, a2, a3⟩ := a
    obtain ⟨b1, b2, b3⟩ := b
    simp only [cellLeR, cellLeB] at hab hba
    simp only [Prod.mk.injEq]
    split_ifs at hab hba <;> simp_all <;> omega⟩

/-- Python min(...) over a nonempty list of ints (the 0 default is never
reached by the guarded call sites, which require nonempty input). -/
def pymin (l : List ℤ) : ℤ :=
  match l with
  | [] => 0
  | x :: xs => xs.foldl min x

/-- Python string comparison a < b on lists of code points. -/
def pyCharListLt : List Char → List Char → Bool
  | [], [] => false
  | [], _ :: _ => true
  | _ :: _, [] => false
  | a :: as, b :: bs =>
    if a < b then true else if b < a then false else pyCharListLt as bs

/-- Python string comparison s < t (lexicographic on code points). -/
def pyStrLt (a b : String) : Bool := pyCharListLt a.data b.data

/-- A rotation entry of _rotations24 / generate_transforms: a permutation
of (0,1,2) paired with a sign triple. -/
abbrev Rot := (ℕ × ℕ × ℕ) × (ℤ × ℤ × ℤ)

/-- itertools.permutations((0,1,2)). -/
def perms012 : List (ℕ × ℕ × ℕ) :=
  [(0,1,2), (0,2,1), (1,0,2), (1,2,0), (2,0,1), (2,1,0)]

/-- solver.py _rotations24: the sign triples with product +1. -/
def rotSigns : List (ℤ × ℤ × ℤ) :=
  [(1,1,1), (1,-1,-1), (-1,1,-1), (-1,-1,1)]

/-- solver.py _rotations24: all (perm, signs) pairs, perms outer loop. -/
def rotations24 : List Rot :=
  perms012.flatMap (fun p => rotSigns.map (fun s => (p, s)))

/-- solver.py _apply_rot: w = (v[p[0]], v[p[1]], v[p[2]]);
return (s[0]*w[0], s[1]*w[1], s[2]*w[2]). -/
def apply_rot (v : Cell) (rot : Rot) : Cell :=
  (rot.2.1 * getc v (permGet rot.1 0),
   rot.2.2.1 * getc v (permGet rot.1 1),
   rot.2.2.2 * getc v (permGet rot.1 2))

/-- components.py _perm_parity: inversion count of a 3-permutation. -/
def perm_parity (p : ℕ × ℕ × ℕ) : ℤ :=
  let inv : ℕ :=
    (if p.1 > p.2.1 then 1 else 0) + (if p.1 > p.2.2 then 1 else 0) +
    (if p.2.1 > p.2.2 then 1 else 0)
  if inv % 2 = 0 then 1 else -1

/-- itertools.product((-1,1), repeat=3). -/
def prodSigns3 : List (ℤ × ℤ × ℤ) :=
  [(-1,-1,-1), (-1,-1,1), (-1,1,-1), (-1,1,1),
   (1,-1,-1), (1,-1,1), (1,1,-1), (1,1,1)]

/-- components.py generate_transforms: keep (perm, signs) whose determinant
parity*s0*s1*s2 is +1 (or -1 too when include_mirror); dict.fromkeys dedup
keeps first occurrences. -/
def generate_transforms (include_mirror : Bool) : List Rot :=
  (perms012.flatMap (fun perm =>
    prodSigns3.filterMap (fun signs =>
      let det := perm_parity perm * signs.1 * signs.2.1 * signs.2.2
      if det = 1 ∨ (include_mirror ∧ det = -1) then some (perm, signs)
      else none))).eraseDups

/-- The 3x3 matrix of the signed-permutation map of apply_rot:
row i has the sign s[i] in column p[i] and 0 elsewhere. -/
def rotEntry (rot : Rot) (i j : ℕ) : ℤ :=
  if permGet rot.1 i = j then getc rot.2 i else 0

/-- The linear map given by the rotEntry matrix, for grounding rotEntry
against apply_rot. -/
def rotMatVec (rot : Rot) (v : Cell) : Cell :=
  (rotEntry rot 0 0 * v.1 + rotEntry rot 0 1 * v.2.1 + rotEntry rot 0 2 * v.2.2,
   rotEntry rot 1 0 * v.1 + rotEntry rot 1 1 * v.2.1 + rotEntry rot 1 2 * v.2.2,
   rotEntry rot 2 0 * v.1 + rotEntry rot 2 1 * v.2.1 + rotEntry rot 2 2 * v.2.2)

/-- Determinant of the rotEntry matrix by the cofactor formula. -/
def rotDet (rot : Rot) : ℤ :=
  rotEntry rot 0 0 * (rotEntry rot 1 1 * rotEntry rot 2 2 - rotEntry rot 1 2 * rotEntry rot 2 1)
  - rotEntry rot 0 1 * (rotEntry rot 1 0 * rotEntry rot 2 2 - rotEntry rot 1 2 * rotEntry rot 2 0)
  + rotEntry rot 0 2 * (rotEntry rot 1 0 * rotEntry rot 2 1 - rotEntry rot 1 1 * rotEntry rot 2 0)

/-- solver.py f-string "i,j,k" for one cell. -/
def serializeCell (c : Cell) : String :=
  toString c.1 ++ "," ++ toString c.2.1 ++ "," ++ toString c.2.2

/-- solver.py ";".join(f"i,j,k" for cells): the canonical serialization. -/
def serializeCells (l : List Cell) : String :=
  String.intercalate ";" (l.map serializeCell)

/-- Result of _canonicalize_cells: (canon_cells, chosen_rot, delta, canon_str). -/
structure CanonRes where
  best : List Cell
  rot : Rot
  delta : Cell
  str : String
  deriving DecidableEq, Repr

/-- One candidate of _canonicalize_cells' loop body: rotate all cells,
translate the per-axis minima to zero, sort, serialize. -/
def canonCandidate (cells : List Cell) (rot : Rot) : CanonRes :=
  let rot_cells := cells.map (fun c => apply_rot c rot)
  let mi := pymin (rot_cells.map (fun c => c.1))
  let mj := pymin (rot_cells.map (fun c => c.2.1))
  let mk := pymin (rot_cells.map (fun c => c.2.2))
  let norm := sortCells (rot_cells.map (fun c => (c.1 - mi, c.2.1 - mj, c.2.2 - mk)))
  ⟨norm, rot, (mi, mj, mk), serializeCells norm⟩

/-- The loop body of _canonicalize_cells: build the candidate for one
rotation and keep it when its serialization is strictly smaller (or when
best_str is still None). -/
def canonStep (cells : List Cell) (acc : Option CanonRes) (rot : Rot) : Option CanonRes :=
  let cand := canonCandidate cells rot
  match acc with
  | none => some cand
  | some b => if pyStrLt cand.str b.str then some cand else acc

/-- solver.py _canonicalize_cells: fold over _rotations24 keeping the
lexicographically smallest serialization (best_str is None initially, so
the first rotation always installs itself). -/
def canonicalize_cells (cells : List Cell) : Option CanonRes :=
  rotations24.foldl (canonStep cells) none

/-- The rotation-independent tail of a candidate: translate the per-axis
minima to zero and sort (the norm computation of _canonicalize_cells). -/
def normSort (l : List Cell) : List Cell :=
  sortCells (l.map (fun c => (c.1 - pymin (l.map (fun d => d.1)),
                              c.2.1 - pymin (l.map (fun d => d.2.1)),
                              c.2.2 - pymin (l.map (fun d => d.2.2)))))

/-- The canonical serialization string (empty-input default unreachable via
the nonempty hypotheses of the theorems below). -/
def canonStr (cells : List Cell) : String :=
  match canonicalize_cells cells with
  | some r => r.str
  | none => ""

/-- The canonical cell list returned by _canonicalize_cells. -/
def canonList (cells : List Cell) : List Cell :=
  match canonicalize_cells cells with
  | some r => r.best
  | none => []

/-- solver.py module-level run-control cache: _runctl_cache_mtime = -1.0,
_runctl_state = "run"; float mtimes are modelled as integers. -/
structure RunctlCache where
  mtime : ℤ
  state : String
  deriving DecidableEq, Repr

def initRunctlCache : RunctlCache := ⟨-1, "run"⟩

/-- One observation of the run-control file by _read_runctl_state:
mtime is none when os.path.getmtime raises; content is none when the file
cannot be opened or holds malformed JSON, and otherwise carries the
optional "state" field of the parsed object (str() is modelled by the
field already being a string). -/
structure RunctlPoll where
  mtime : Option ℤ
  content : Option (Option String)

/-- solver.py _read_runctl_state: re-read only when the mtime changed;
parse failures fall back to "run"; a failed stat returns the cache. -/
def read_runctl_state (fs : RunctlPoll) (cache : RunctlCache) : String × RunctlCache :=
  match fs.mtime with
  | none => (cache.state, cache)
  | some m =>
    if m ≠ cache.mtime then
      let st :=
        match fs.content with
        | none => "run"
        | some d => (d.getD "run").toLower
      (st, ⟨m, st⟩)
    else (cache.state, cache)

/-- solver_engine.py _NEIGH: the 12 FCC neighbor offsets. -/
def NEIGH : List Cell :=
  [(1,0,0), (-1,0,0), (0,1,0), (0,-1,0), (0,0,1), (0,0,-1),
   (1,-1,0), (-1,1,0), (1,0,-1), (-1,0,1), (0,1,-1), (0,-1,1)]

/-- solver_engine.py _ORDER_PREF: preferred piece order bias. -/
def ORDER_PREF : List String :=
  ["A","C","E","G","I","J","H","F","D","B","Y",
   "X","W","L","K","V","U","T",
   "N","M",
   "S","R","Q","P","O"]

def DEFAULT_BRANCH_CAP_OPEN : ℕ := 18
def DEFAULT_BRANCH_CAP_TIGHT : ℕ := 10
def DEFAULT_ROULETTE_MODE : String := "least-tried"
def DEFAULT_RNG_SEED : ℕ := 1337
def DEFAULT_TT_MAX : ℕ := 1200000
def DEFAULT_TT_TRIM_KEEP : ℕ := 800000
/-- Python float 1.0 as an exact rational. -/
def DEFAULT_EXPOSURE_WEIGHT : ℚ := 1
/-- Python float 0.8 as an exact rational. -/
def DEFAULT_BOUNDARY_EXPOSURE_WEIGHT : ℚ := 4/5
/-- Python float 0.8 as an exact rational. -/
def DEFAULT_LEAF_WEIGHT : ℚ := 4/5
def DEFAULT_DEG2_CORRIDOR : Bool := false
def DEFAULT_HOLE_MOD4_DETECT : Bool := false

/-- Componentwise addition (oi+dx, oj+dy, ok+dz). -/
def cadd (a b : Cell) : Cell := (a.1 + b.1, a.2.1 + b.2.1, a.2.2 + b.2.2)

/-- Update-or-append for a Python dict modelled as an insertion-ordered
association list: assignment to an existing key keeps its position, a new
key is appended (newest last). -/
def assocSet {K V : Type} [DecidableEq K] : List (K × V) → K → V → List (K × V)
  | [], k, v => [(k, v)]
  | (k', v') :: rest, k, v =>
    if k' = k then (k, v) :: rest else (k', v') :: assocSet rest k v

/-- One entry of a per-origin fit list: (ori_idx, mask, cells_idx). -/
structure Fit where
  ori_idx : ℕ
  mask : ℕ
  cells_idx : List ℕ
  deriving DecidableEq, Repr

/-- A ranked candidate as produced by _rank_and_cap:
(origin_idx, ori_idx, mask, cells_idx). -/
structure Choice where
  origin_idx : ℕ
  ori_idx : ℕ
  mask : ℕ
  cells_idx : List ℕ
  deriving DecidableEq, Repr

/-- A scored raw candidate as appended by consider():
(score_expo, dist_score, origin_idx, ori_idx, mask, cells_idx). -/
structure PreChoice where
  score_expo : ℚ
  dist_score : ℤ
  origin_idx : ℕ
  ori_idx : ℕ
  mask : ℕ
  cells_idx : List ℕ
  deriving DecidableEq, Repr

/-- A decorated candidate inside _rank_and_cap:
(score_expo, dist_score, try_count, origin_idx, ori_idx, mask, cells_idx). -/
structure Deco where
  score_expo : ℚ
  dist_score : ℤ
  tc : ℕ
  origin_idx : ℕ
  ori_idx : ℕ
  mask : ℕ
  cells_idx : List ℕ
  deriving DecidableEq, Repr

/-- An entry of the placements stack. -/
structure Placement where
  piece : String
  origin_idx : ℕ
  ori_idx : ℕ
  mask : ℕ
  cells_idx : List ℕ
  deriving DecidableEq, Repr

/-- The 64-bit random.getrandbits stream: an uninterpreted generator taking
the seed passed to random.seed and the number of draws (the Mersenne
Twister itself is not reimplemented). -/
abbrev KeyGen := ℕ → ℕ → List ℕ

/-- random.Random(seed).shuffle applied to one roulette bucket, as an
uninterpreted oracle: arguments are the seed value, the bucket key and the
bucket; theorems about reachable states assume it permutes its input. -/
abbrev RouletteOracle := ℕ → (ℚ × ℕ) → List Deco → List Deco

/-- The mutable state of SolverEngine.  The original `pieces` dict is not
kept: after __init__ only `fits` and `order` derived from it are read.
Write-only statistics (histograms, anchor_seen, transitions, last_anchor,
stat_* counters) are omitted; see the header comment. -/
structure Engine where
  RNG_SEED : ℕ
  BRANCH_CAP_OPEN : ℕ
  BRANCH_CAP_TIGHT : ℕ
  ROULETTE_MODE : String
  TT_MAX : ℕ
  TT_TRIM_KEEP : ℕ
  EXPOSURE_WEIGHT : ℚ
  BOUNDARY_EXPOSURE_WEIGHT : ℚ
  LEAF_WEIGHT : ℚ
  deg2_corridor : Bool
  hole_mod4 : Bool
  shuffle_mode : String
  idx2cell : List Cell
  neighbors : List (List ℕ)
  is_boundary : List Bool
  fits : List (String × List (ℕ × List Fit))
  order : List String
  occ_keys : List ℕ
  depth_keys : List ℕ
  TT : List (ℕ × ℕ)
  cursor : ℕ
  occ_bits : ℕ
  placements : List Placement
  frontier : List (List Choice)
  solved : Bool
  dirty : Bool
  attempts : ℕ
  try_counts : List ((String × ℕ × ℕ) × ℕ)
  forced_singletons : ℕ
  tt_hits : ℕ
  tt_prunes : ℕ
  branch_cap_cur : ℕ
  roulette_cur : String
  in_corridor : Bool
  best_depth_ever : ℕ
  deriving DecidableEq, Repr

/-- _build_grid: idx2cell = sorted(set(valid_set)). -/
def build_idx2cell (valid_set : List Cell) : List Cell :=
  sortCells valid_set.eraseDups

/-- _build_grid: per-cell list of in-container FCC neighbor indices. -/
def build_neighbors (idx2cell : List Cell) : List (List ℕ) :=
  idx2cell.map (fun c => NEIGH.filterMap (fun d => idx2cell.indexOf? (cadd c d)))

/-- _build_grid: a cell is on the boundary iff some FCC offset leaves the
container. -/
def build_is_boundary (idx2cell : List Cell) : List Bool :=
  idx2cell.map (fun c => NEIGH.any (fun d => !(idx2cell.contains (cadd c d))))

/-- _precompute_fits, one (piece, origin) pair: every orientation whose
four cells all lie in the container, with its bitmask and covered indices. -/
def fitsForOrigin (idx2cell : List Cell) (oris : List (List Cell)) (origin : Cell) : List Fit :=
  oris.enum.filterMap (fun p =>
    match p.2.mapM (fun d => idx2cell.indexOf? (cadd origin d)) with
    | none => none
    | some idxs => some ⟨p.1, idxs.foldl (fun m ii => m ||| (1 <<< ii)) 0, idxs⟩)

/-- _precompute_fits: per piece, the per-origin fit dict (origins with no
fit are absent).  The Python iteration over the unordered set valid_set
builds a dict whose contents are origin-keyed and order-independent; it is
modelled in cell-index order. -/
def precompute_fits (pieces : List (String × List (List Cell))) (idx2cell : List Cell) :
    List (String × List (ℕ × List Fit)) :=
  pieces.map (fun kv =>
    (kv.1, idx2cell.enum.filterMap (fun oc =>
      let lst := fitsForOrigin idx2cell kv.2 oc.2
      if lst.isEmpty then none else some (oc.1, lst))))

/-- Python string comparison s <= t, for sorted() on piece ids. -/
def strLeR (a b : String) : Prop := pyCharListLt b.data a.data = false

instance : DecidableRel strLeR :=
  fun a b => instDecidableEqBool (pyCharListLt b.data a.data) false

/-- _pick_order: preference-ordered ids present in the library, then the
rest sorted. -/
def pick_order (pieces : List (String × List (List Cell))) : List String :=
  let keys := (pieces.map Prod.fst).eraseDups
  let ordered := ORDER_PREF.filter (fun k => keys.contains k)
  let remaining := List.insertionSort strLeR (keys.filter (fun k => !(ORDER_PREF.contains k)))
  ordered ++ remaining

/-- _init_zobrist: one getrandbits(64) stream seeded with
RNG_SEED xor 0x9E3779B97F4A7C15; the first N draws are occ_keys, the next
depth_cap+1 draws are depth_keys. -/
def init_zobrist (keygen : KeyGen) (seed : ℕ) (N : ℕ) (depth_cap : ℕ) : List ℕ × List ℕ :=
  let ks := keygen (seed ^^^ 0x9E3779B97F4A7C15) (N + (depth_cap + 1))
  (ks.take N, ks.drop N)

/-- SolverEngine.__init__ (tunables at their defaults; build_engine then
overrides some).  The zobrist keys are drawn with the seed value held by
RNG_SEED at construction time, i.e. the default 1337. -/
def engineInit (pieces : List (String × List (List Cell))) (valid_set : List Cell)
    (keygen : KeyGen) : Engine :=
  let idx2cell := build_idx2cell valid_set
  let order := pick_order pieces
  let keys := init_zobrist keygen DEFAULT_RNG_SEED idx2cell.length order.length
  { RNG_SEED := DEFAULT_RNG_SEED
    BRANCH_CAP_OPEN := DEFAULT_BRANCH_CAP_OPEN
    BRANCH_CAP_TIGHT := DEFAULT_BRANCH_CAP_TIGHT
    ROULETTE_MODE := DEFAULT_ROULETTE_MODE
    TT_MAX := DEFAULT_TT_MAX
    TT_TRIM_KEEP := DEFAULT_TT_TRIM_KEEP
    EXPOSURE_WEIGHT := DEFAULT_EXPOSURE_WEIGHT
    BOUNDARY_EXPOSURE_WEIGHT := DEFAULT_BOUNDARY_EXPOSURE_WEIGHT
    LEAF_WEIGHT := DEFAULT_LEAF_WEIGHT
    deg2_corridor := DEFAULT_DEG2_CORRIDOR
    hole_mod4 := DEFAULT_HOLE_MOD4_DETECT
    shuffle_mode := "none"
    idx2cell := idx2cell
    neighbors := build_neighbors idx2cell
    is_boundary := build_is_boundary idx2cell
    fits := precompute_fits pieces idx2cell
    order := order
    occ_keys := keys.1
    depth_keys := keys.2
    TT := []
    cursor := 0
    occ_bits := 0
    placements := []
    frontier := []
    solved := false
    dirty := false
    attempts := 0
    try_counts := []
    forced_singletons := 0
    tt_hits := 0
    tt_prunes := 0
    branch_cap_cur := DEFAULT_BRANCH_CAP_OPEN
    roulette_cur := DEFAULT_ROULETTE_MODE
    in_corridor := false
    best_depth_ever := 0 }

/-- SolverEngine._is_occupied: (bitset >> idx) & 1. -/
def is_occupied (bitset idx : ℕ) : ℕ := (bitset >>> idx) &&& 1

/-- SolverEngine._neighbor_degree: number of unoccupied neighbors. -/
def neighbor_degree (nbrs : List (List ℕ)) (idx occ : ℕ) : ℕ :=
  ((nbrs.getD idx []).filter (fun n => is_occupied occ n == 0)).length

/-- SolverEngine._select_anchor: the unoccupied index of least unoccupied
degree (first such index wins ties); none when everything is occupied. -/
def select_anchor (nbrs : List (List ℕ)) (N occ : ℕ) : Option (ℕ × ℕ) :=
  let r := (List.range N).foldl (fun (acc : ℤ × ℕ) idx =>
    if is_occupied occ idx == 0 then
      let deg := neighbor_degree nbrs idx occ
      if deg < acc.2 ∨ (deg = acc.2 ∧ (acc.1 < 0 ∨ (idx : ℤ) < acc.1)) then
        ((idx : ℤ), deg)
      else acc
    else acc) (-1, 10 ^ 9)
  if r.1 < 0 then none else some (r.1.toNat, r.2)

/-- The stack phase of the flood fill of _empties_mod4_ok.  Python pushes
and pops at the end of a list; the stack is modelled with its top at the
head, which visits the same component (seen-marking on push makes the
visit order irrelevant to the computed size).  Each cell is pushed at most
once, so N+1 units of fuel always suffice. -/
def floodStep (nbrs : List (List ℕ)) (occ : ℕ) :
    ℕ → List ℕ → List Bool → ℕ → List Bool × ℕ
  | 0, _, seen, size => (seen, size)
  | _ + 1, [], seen, size => (seen, size)
  | fuel + 1, u :: rest, seen, size =>
    let acc := (nbrs.getD u []).foldl (fun (acc : List ℕ × List Bool) v =>
      if ((occ >>> v) &&& 1) == 0 && !(acc.2.getD v false) then
        (v :: acc.1, acc.2.set v true)
      else acc) (rest, seen)
    floodStep nbrs occ fuel acc.1 acc.2 (size + 1)

/-- SolverEngine._empties_mod4_ok: flood every connected empty component
and require each size to be divisible by 4 (Python returns at the first
bad component; modelled by a short-circuit flag). -/
def empties_mod4_ok (nbrs : List (List ℕ)) (N occ_after : ℕ) : Bool :=
  ((List.range N).foldl (fun (acc : List Bool × Bool) i =>
    if !acc.2 then acc
    else if ((occ_after >>> i) &&& 1) != 0 || acc.1.getD i false then acc
    else
      let fl := floodStep nbrs occ_after (N + 1) [i] (acc.1.set i true) 0
      (fl.1, (fl.2 &&& 3) == 0)) (List.replicate N false, true)).2

/-- SolverEngine._creates_isolated_empty: some cell among the newly filled
cells and their neighbors is empty with no empty neighbor. -/
def creates_isolated_empty (nbrs : List (List ℕ)) (occ_after : ℕ)
    (touched : List ℕ) : Bool :=
  let to_check := (touched.flatMap (fun t => t :: nbrs.getD t [])).eraseDups
  to_check.any (fun x =>
    (((occ_after >>> x) &&& 1) == 0) &&
    !((nbrs.getD x []).any (fun n => ((occ_after >>> n) &&& 1) == 0)))

/-- SolverEngine._exposure_counts_after: distinct empty neighbors of the
newly filled cells, and how many of those are boundary cells. -/
def exposure_counts_after (nbrs : List (List ℕ)) (isb : List Bool)
    (occ_after : ℕ) (newly : List ℕ) : ℕ × ℕ :=
  let seen := (newly.flatMap (fun u =>
    (nbrs.getD u []).filter (fun v => ((occ_after >>> v) &&& 1) == 0))).eraseDups
  (seen.length, (seen.filter (fun v => isb.getD v false)).length)

/-- SolverEngine._leaf_empties_after: of the empty neighbors of the newly
filled cells, how many have exactly one empty neighbor themselves. -/
def leaf_empties_after (nbrs : List (List ℕ)) (occ_after : ℕ)
    (newly : List ℕ) : ℕ :=
  let cand := (newly.flatMap (fun u =>
    (nbrs.getD u []).filter (fun v => ((occ_after >>> v) &&& 1) == 0))).eraseDups
  (cand.filter (fun v =>
    ((nbrs.getD v []).filter (fun w => ((occ_after >>> w) &&& 1) == 0)).length == 1)).length

/-- The consider() closure of _build_choices_bits: prune isolated-empty and
(optionally) bad mod-4 components, then score.  Returns none when pruned. -/
def considerChoice (e : Engine) (occ : ℕ) (anchorRes : Option (ℕ × ℕ))
    (anchor_nbrs : List ℕ) (origin_idx ori_idx mask : ℕ) (cells_idx : List ℕ) :
    Option PreChoice :=
  let occ_after := occ ||| mask
  if creates_isolated_empty e.neighbors occ_after cells_idx then none
  else if e.hole_mod4 && !(empties_mod4_ok e.neighbors e.idx2cell.length occ_after) then none
  else
    let ebe := exposure_counts_after e.neighbors e.is_boundary occ_after cells_idx
    let lf := leaf_empties_after e.neighbors occ_after cells_idx
    let score_expo : ℚ := e.EXPOSURE_WEIGHT * ebe.1 + e.BOUNDARY_EXPOSURE_WEIGHT * ebe.2
      + e.LEAF_WEIGHT * lf
    let dist_score : ℤ :=
      match anchorRes with
      | none => 0
      | some a =>
        if cells_idx.contains a.1 then -10
        else if cells_idx.any (fun ci => anchor_nbrs.contains ci) then -5
        else
          let ac := e.idx2cell.getD a.1 (0, 0, 0)
          let oc := e.idx2cell.getD origin_idx (0, 0, 0)
          |ac.1 - oc.1| + |ac.2.1 - oc.2.1| + |ac.2.2 - oc.2.2|
    some ⟨score_expo, dist_score, origin_idx, ori_idx, mask, cells_idx⟩

/-- _build_choices_bits before ranking: select the anchor, set the corridor
fields, try fits covering the anchor, else fall back to any unoccupied
origin.  Returns the raw candidates together with the engine whose
in_corridor / branch_cap_cur / roulette_cur fields were updated. -/
def build_choices_core (e : Engine) (piece_key : String) :
    List PreChoice × Engine :=
  let occ := e.occ_bits
  let fits_map := (e.fits.lookup piece_key).getD []
  let N := e.idx2cell.length
  let anchorRes := select_anchor e.neighbors N occ
  let in_corr :=
    match anchorRes with
    | some a => a.2 == 1 || (a.2 == 2 && e.deg2_corridor)
    | none => false
  let e1 := { e with
    in_corridor := in_corr
    branch_cap_cur := if in_corr then e.BRANCH_CAP_TIGHT else e.BRANCH_CAP_OPEN
    roulette_cur := if in_corr then "none" else e.ROULETTE_MODE }
  let anchor_nbrs :=
    match anchorRes with
    | some a => e.neighbors.getD a.1 []
    | none => []
  let phase1 :=
    match anchorRes with
    | some a =>
      match fits_map.lookup a.1 with
      | some afits =>
        if afits.isEmpty then []
        else afits.filterMap (fun (f : Fit) =>
          if occ &&& f.mask == 0 then
            considerChoice e occ anchorRes anchor_nbrs a.1 f.ori_idx f.mask f.cells_idx
          else none)
      | none => []
    | none => []
  let choices :=
    if phase1.isEmpty then
      (List.range N).flatMap (fun idx =>
        if is_occupied occ idx != 0 then []
        else
          match fits_map.lookup idx with
          | none => []
          | some pfits =>
            if pfits.isEmpty then []
            else pfits.filterMap (fun (f : Fit) =>
              if occ &&& f.mask == 0 then
                considerChoice e occ anchorRes anchor_nbrs idx f.ori_idx f.mask f.cells_idx
              else none))
    else phase1
  (choices, e1)

/-- Read of a defaultdict(int): missing keys count as 0. -/
def tcGet (l : List ((String × ℕ × ℕ) × ℕ)) (k : String × ℕ × ℕ) : ℕ :=
  (l.lookup k).getD 0

/-- The sort key of _rank_and_cap: ascending lexicographic on
(score_expo, dist_score, try_count, origin_idx, ori_idx). -/
def decoLeB (a b : Deco) : Bool :=
  if a.score_expo < b.score_expo then true else if b.score_expo < a.score_expo then false
  else if a.dist_score < b.dist_score then true else if b.dist_score < a.dist_score then false
  else if a.tc < b.tc then true else if b.tc < a.tc then false
  else if a.origin_idx < b.origin_idx then true else if b.origin_idx < a.origin_idx then false
  else a.ori_idx ≤ b.ori_idx

def decoLeR (a b : Deco) : Prop := decoLeB a b = true

instance : DecidableRel decoLeR := fun a b => instDecidableEqBool (decoLeB a b) true

/-- Bucket-key comparison for sorted(grouped.keys()): lexicographic on
(score_expo, try_count). -/
def bucketKeyLeR (a b : ℚ × ℕ) : Prop :=
  (if a.1 < b.1 then true else if b.1 < a.1 then false else a.2 ≤ b.2) = true

instance : DecidableRel bucketKeyLeR :=
  fun a b => instDecidableEqBool (if a.1 < b.1 then true else if b.1 < a.1 then false
    else a.2 ≤ b.2) true

/-- SolverEngine._rank_and_cap: decorate with try counts, sort, cap at the
current branch cap, and in least-tried mode concatenate the
(score, try_count) buckets in ascending key order after shuffling each
bucket with the deterministic RNG (modelled by the oracle). -/
def rank_and_cap (orc : RouletteOracle) (e : Engine) (piece_key : String)
    (choices : List PreChoice) : List Choice × Engine :=
  match choices with
  | [] => ([], e)
  | _ =>
    let deco := choices.map (fun pc =>
      (⟨pc.score_expo, pc.dist_score, tcGet e.try_counts (piece_key, pc.origin_idx, pc.ori_idx),
        pc.origin_idx, pc.ori_idx, pc.mask, pc.cells_idx⟩ : Deco))
    let deco := List.insertionSort decoLeR deco
    let k := if e.branch_cap_cur ≠ 0 then e.branch_cap_cur else deco.length
    let top := deco.take k
    let out :=
      if e.roulette_cur == "least-tried" then
        let keys := (top.map (fun d => (d.score_expo, d.tc))).eraseDups
        let sortedKeys := List.insertionSort bucketKeyLeR keys
        sortedKeys.flatMap (fun key =>
          orc (e.RNG_SEED ^^^ 0xC0FFEE ^^^ e.placements.length) key
            (top.filter (fun d => (d.score_expo, d.tc) == key)))
      else top
    (out.map (fun d => ⟨d.origin_idx, d.ori_idx, d.mask, d.cells_idx⟩), e)

/-- _build_choices_bits: raw candidates, then _rank_and_cap. -/
def build_choices_bits (orc : RouletteOracle) (e : Engine) (piece_key : String) :
    List Choice × Engine :=
  let core := build_choices_core e piece_key
  rank_and_cap orc core.2 piece_key core.1

/-- occ_bits &= ~mask on arbitrary-precision ints clears the bits of mask;
Nat has no complement, so this is written occ xor (occ and mask), proved
below to coincide with Nat.ldiff (bitwise and-not). -/
def clearBits (occ mask : ℕ) : ℕ := occ ^^^ (occ &&& mask)

/-- SolverEngine._apply_place: or the mask into the occupancy, push the
placement, bump its try count. -/
def apply_place (e : Engine) (piece_key : String) (origin_idx ori_idx mask : ℕ)
    (cells_idx : List ℕ) : Engine :=
  { e with
    occ_bits := e.occ_bits ||| mask
    placements := e.placements ++ [⟨piece_key, origin_idx, ori_idx, mask, cells_idx⟩]
    try_counts := assocSet e.try_counts (piece_key, origin_idx, ori_idx)
      (tcGet e.try_counts (piece_key, origin_idx, ori_idx) + 1) }

/-- SolverEngine._remove_last: pop the placements stack and clear its mask
from the occupancy. -/
def remove_last (e : Engine) : Engine × Option Placement :=
  match e.placements.getLast? with
  | none => (e, none)
  | some pl =>
    ({ e with
        placements := e.placements.dropLast
        occ_bits := clearBits e.occ_bits pl.mask }, some pl)

/-- The while-x loop of _tt_hash: xor in occ_keys[i] for every set bit i.
Fuel x suffices: the loop runs bitlength-of-x times. -/
def tt_hash_aux (occ_keys : List ℕ) : ℕ → ℕ → ℕ → ℕ → ℕ
  | 0, h, _, _ => h
  | fuel + 1, h, x, idx =>
    if x == 0 then h
    else
      tt_hash_aux occ_keys fuel
        (if x &&& 1 == 1 then h ^^^ occ_keys.getD idx 0 else h) (x >>> 1) (idx + 1)

/-- SolverEngine._tt_hash: xor of occ_keys over set occupancy bits, xor the
depth key of the cursor (or a multiplicative fallback past the table). -/
def tt_hash (e : Engine) (occ_bits cursor : ℕ) : ℕ :=
  let h := tt_hash_aux e.occ_keys occ_bits 0 occ_bits 0
  if cursor < e.depth_keys.length then h ^^^ e.depth_keys.getD cursor 0
  else h ^^^ ((cursor * 11400714819323198485) &&& ((1 <<< 64) - 1))

/-- SolverEngine._tt_should_prune (the TT-is-None guard is dead code: the
table is a dict from construction on). -/
def tt_should_prune (e : Engine) : Bool × Engine :=
  let h := tt_hash e e.occ_bits e.cursor
  match e.TT.lookup h with
  | some prev =>
    if prev ≥ e.cursor then
      (true, { e with tt_hits := e.tt_hits + 1, tt_prunes := e.tt_prunes + 1 })
    else (false, e)
  | none => (false, e)

/-- SolverEngine._tt_record: keep the larger cursor for the hash, then trim
oldest-insertion entries down to TT_TRIM_KEEP when TT_MAX is exceeded. -/
def tt_record (e : Engine) : Engine :=
  let h := tt_hash e e.occ_bits e.cursor
  let tt1 :=
    match e.TT.lookup h with
    | none => assocSet e.TT h e.cursor
    | some prev => if e.cursor > prev then assocSet e.TT h e.cursor else e.TT
  let tt2 := if tt1.length > e.TT_MAX then tt1.drop (tt1.length - e.TT_TRIM_KEEP) else tt1
  { e with TT := tt2 }

/-- SolverEngine._build_frontier_for_depth: append the choice deque for the
given depth; defensive no-op at or past the end of the order. -/
def build_frontier_for_depth (orc : RouletteOracle) (e : Engine) (cursor : ℕ) : Engine :=
  if cursor ≥ e.order.length then e
  else
    let piece_key := e.order.getD cursor ""
    let bc := build_choices_bits orc e piece_key
    { bc.2 with frontier := bc.2.frontier ++ [bc.1] }

/-- The best_depth_ever updates sprinkled through step_once. -/
def bumpBest (e : Engine) : Engine :=
  if e.placements.length > e.best_depth_ever then
    { e with best_depth_ever := e.placements.length }
  else e

/-- The while-True loop of step_once.  The loop leaves via return or break
except when a forced singleton advances the cursor, which is bounded by the
number of remaining piece slots, so fuel |order|+1 always suffices (the
fuel-exhausted branch returns the current state and is unreachable from
the call site). -/
def inner_loop (orc : RouletteOracle) : ℕ → Engine → Bool → Engine × Bool × Bool
  | 0, e, progressed => (e, progressed, false)
  | fuel + 1, e, progressed =>
    if e.cursor ≥ e.order.length then
      ({ bumpBest e with solved := true }, true, true)
    else
      match e.frontier.getD e.cursor [] with
      | [] =>
        if e.cursor == 0 then (bumpBest e, progressed, false)
        else
          let e := if e.frontier.length > e.cursor then
              { e with frontier := e.frontier.dropLast } else e
          let e := { e with cursor := e.cursor - 1 }
          let e := (remove_last e).1
          let e := tt_record e
          (bumpBest e, true, false)
      | [c] =>
        let e := { e with frontier := e.frontier.set e.cursor [] }
        let piece_key := e.order.getD e.cursor ""
        let e := apply_place e piece_key c.origin_idx c.ori_idx c.mask c.cells_idx
        let e := { e with cursor := e.cursor + 1,
                          forced_singletons := e.forced_singletons + 1 }
        let e := if e.frontier.length ≤ e.cursor then
            build_frontier_for_depth orc e e.cursor else e
        inner_loop orc fuel e true
      | c :: rest =>
        let e := { e with frontier := e.frontier.set e.cursor rest }
        let piece_key := e.order.getD e.cursor ""
        let e := apply_place e piece_key c.origin_idx c.ori_idx c.mask c.cells_idx
        let e := { e with cursor := e.cursor + 1 }
        (bumpBest e, true, false)

/-- SolverEngine.step_once: returns (engine, progressed, solved).  The
defensive clamp of a negative cursor is vacuous over Nat. -/
def step_once (orc : RouletteOracle) (e : Engine) : Engine × Bool × Bool :=
  if e.dirty || e.solved then (e, false, e.solved)
  else
    let e := { e with attempts := e.attempts + 1 }
    if e.cursor ≥ e.order.length then ({ bumpBest e with solved := true }, true, true)
    else
      let pr := tt_should_prune e
      if pr.1 then
        let e := pr.2
        if e.cursor == 0 then (e, false, false)
        else
          let e := if e.frontier.length > e.cursor then
              { e with frontier := e.frontier.dropLast } else e
          let e := { e with cursor := e.cursor - 1 }
          let e := (remove_last e).1
          (e, true, false)
      else
        let e := pr.2
        if e.cursor ≥ e.order.length then ({ bumpBest e with solved := true }, true, true)
        else
          let e := if e.frontier.length ≤ e.cursor then
              build_frontier_for_depth orc e e.cursor else e
          inner_loop orc (e.order.length + 1) e false

/-- solver.py build_engine: fresh engine, then RNG_SEED override, shuffle,
opener rotation, hole4 toggle.  SolverEngine has no _shuffle_order method,
so eng._shuffle_order(shuffle) raises AttributeError after the
shuffle_mode attribute was set; the bare except swallows it and the piece
order is left unchanged for every shuffle mode. -/
def build_engine (pieces : List (String × List (List Cell))) (valid_set : List Cell)
    (keygen : KeyGen) (rng_seed : Option ℕ) (shuffle : String) (rotate_first : ℕ)
    (hole4 : Bool) : Engine :=
  let eng := engineInit pieces valid_set keygen
  let eng := match rng_seed with
    | some s => { eng with RNG_SEED := s }
    | none => eng
  let eng := { eng with shuffle_mode := shuffle }
  let eng :=
    if rotate_first ≠ 0 ∧ eng.order.length > 0 then
      let r := rotate_first % eng.order.length
      if r ≠ 0 then { eng with order := eng.order.drop r ++ eng.order.take r } else eng
    else eng
  { eng with hole_mod4 := hole4 }

/-- The driver options read by run_once_with_engine / effective_stall_limit
(stall windows in clock ticks). -/
structure SolverArgs where
  restart_on_stall : Option ℕ
  stall_below_23 : Option ℕ
  stall_at_23 : Option ℕ
  stall_at_24 : Option ℕ
  hole4 : Bool
  hole4_conditional : Bool
  snapshot_interval : Option ℕ
  snapshot_on_depth : Bool
  deriving DecidableEq, Repr

/-- solver.py effective_stall_limit: depth-keyed stall windows with the
general restart_on_stall fallback. -/
def effective_stall_limit (a : SolverArgs) (best_depth : ℕ) : Option ℕ :=
  if a.stall_at_24.isSome ∧ best_depth ≥ 24 then a.stall_at_24
  else if a.stall_at_23.isSome ∧ best_depth ≥ 23 then a.stall_at_23
  else if a.stall_below_23.isSome ∧ best_depth < 23 then a.stall_below_23
  else a.restart_on_stall

/-- One "progress" payload of make_emit_progress (the placed_only variant
is never used by run_once_with_engine).  attempts_per_sec is in attempts
per clock tick; the initial float 0.0 and later ints are both ticks 0. -/
structure ProgressEvent where
  run : ℕ
  seed : String
  placed : ℕ
  best_depth : ℕ
  total : ℕ
  attempts : ℕ
  attempts_per_sec : ℕ
  deriving DecidableEq, Repr

/-- make_emit_progress's emit_progress: the payload built from the engine. -/
def emit_progress (e : Engine) (run_idx : ℕ) (seed_label : String) (aps : ℕ) :
    ProgressEvent :=
  ⟨run_idx, seed_label, e.placements.length, e.best_depth_ever, e.order.length,
   e.attempts, aps⟩

/-- solver.py _empties_mod4_ok_now: ask the engine about the current
occupancy (the method exists, so the except-True fallback is dead). -/
def empties_mod4_ok_now (e : Engine) : Bool :=
  empties_mod4_ok e.neighbors e.idx2cell.length e.occ_bits

/-- The local state of run_once_with_engine's attempt loop.  Clock values
are ticks from attempt start; events collects the emitted progress
payloads in order.  Run control is modelled as constantly "run": the
configurations of the claims below have no pause or stop, so the paused
branch never executes. -/
structure RunState where
  eng : Engine
  progressed_any : Bool
  last_best : ℕ
  last_improve_t : ℕ
  last_log_t : ℕ
  prev_t : ℕ
  prev_att : ℕ
  last_snap_t : ℕ
  now : ℕ
  deferred_hole4 : Bool
  want_hole4 : Bool
  events : List ProgressEvent
  deriving Repr

/-- run_once_with_engine before the loop: record want_hole4, defer hole4
when conditionally gated, emit the initial progress event (the initial
snapshot is I/O only). -/
def run_once_init (e : Engine) (args : SolverArgs) (run_idx : ℕ)
    (seed_label : String) : RunState :=
  let want := e.hole_mod4
  let gated := args.hole4 ∧ args.hole4_conditional
  let e := if gated then { e with hole_mod4 := false } else e
  let ev := emit_progress e run_idx seed_label 0
  { eng := e
    progressed_any := false
    last_best := e.best_depth_ever
    last_improve_t := 0
    last_log_t := 0
    prev_t := 0
    prev_att := e.attempts
    last_snap_t := 0
    now := 0
    deferred_hole4 := gated
    want_hole4 := want
    events := [ev] }

/-- One iteration of run_once_with_engine's while-True loop, advancing the
clock by dt ticks: step the engine, compute attempts-per-tick, enable the
gated hole4 prune once the empties are mod-4 clean, emit the periodic and
the improvement progress events, then return either the next state (inl)
or the attempt status (inr): solved, exhausted_root or
stalled_or_exhausted when the stall window has elapsed. -/
def run_once_iter (orc : RouletteOracle) (args : SolverArgs) (run_idx : ℕ)
    (seed_label : String) (dt : ℕ) (s : RunState) :
    RunState ⊕ (String × RunState) :=
  let st := step_once orc s.eng
  let e1 := st.1
  let progressed_any := s.progressed_any || st.2.1
  let now := s.now + dt
  let attempts := e1.attempts
  let dtv := max 1 (now - s.prev_t)
  let aps := (attempts - s.prev_att) / dtv
  let gate := s.deferred_hole4 ∧ empties_mod4_ok_now e1 = true
  let e2 := if gate then { e1 with hole_mod4 := s.want_hole4 } else e1
  let deferred := if gate then false else s.deferred_hole4
  let periodic := now - s.last_log_t ≥ 5
  let events1 := if periodic then s.events ++ [emit_progress e2 run_idx seed_label aps]
    else s.events
  let last_log := if periodic then now else s.last_log_t
  let prev_t := if periodic then now else s.prev_t
  let prev_att := if periodic then attempts else s.prev_att
  let last_snap :=
    if periodic ∧ args.snapshot_interval.isSome ∧
        now - s.last_snap_t ≥ args.snapshot_interval.getD 0 then now
    else s.last_snap_t
  let cur_best2 := e2.best_depth_ever
  let improved := cur_best2 > s.last_best
  let events2 := if improved then events1 ++ [emit_progress e2 run_idx seed_label aps]
    else events1
  let last_best := if improved then cur_best2 else s.last_best
  let last_improve := if improved then now else s.last_improve_t
  let s' : RunState :=
    ⟨e2, progressed_any, last_best, last_improve, last_log, prev_t, prev_att,
     last_snap, now, deferred, s.want_hole4, events2⟩
  if st.2.2 then Sum.inr ("solved", s')
  else
    match effective_stall_limit args cur_best2 with
    | some sl =>
      if now - last_improve ≥ sl then
        if e2.placements.length == 0 then Sum.inr ("exhausted_root", s')
        else Sum.inr ("stalled_or_exhausted", s')
      else Sum.inl s'
    | none => Sum.inl s'

/-- run_once_with_engine's loop under a clock schedule (ticks per
iteration, indexed from 0) and a fuel bound; none means the loop has not
returned within fuel iterations. -/
def run_once_loop (orc : RouletteOracle) (args : SolverArgs) (run_idx : ℕ)
    (seed_label : String) (sched : ℕ → ℕ) :
    ℕ → ℕ → RunState → RunState × Option String
  | _, 0, s => (s, none)
  | i, fuel + 1, s =>
    match run_once_iter orc args run_idx seed_label (sched i) s with
    | Sum.inl s' => run_once_loop orc args run_idx seed_label sched (i + 1) fuel s'
    | Sum.inr r => (r.2, some r.1)

/-- solver.py run_once_with_engine, from a fresh attempt engine. -/
def run_once_with_engine (orc : RouletteOracle) (args : SolverArgs) (run_idx : ℕ)
    (seed_label : String) (sched : ℕ → ℕ) (fuel : ℕ) (e : Engine) :
    RunState × Option String :=
  run_once_loop orc args run_idx seed_label sched 0 fuel
    (run_once_init e args run_idx seed_label)

/-- A degenerate getrandbits stream (any stream serves the claims whose
zobrist keys are never compared). -/
def keygen0 : KeyGen := fun _ n => List.replicate n 0

/-- The identity roulette oracle (a permutation). -/
def idOracle : RouletteOracle := fun _ _ l => l

/-- A container of one cell: cell count 1 is not a multiple of 4. -/
def oneCellContainer : List Cell := [(0, 0, 0)]

/-- A piece library with the single piece A of scenario S1 (one
orientation, four FCC cells). -/
def onePieceLib : List (String × List (List Cell)) :=
  [("A", [[(0,0,0), (1,1,0), (1,0,1), (0,1,1)]])]

/-- Driver defaults: no stall windows, no hole4, no snapshots. -/
def argsDefault : SolverArgs := ⟨none, none, none, none, false, false, none, false⟩

/-- The attempt engine the driver builds for a one-cell container with the
default configuration (rng seed 42 as a representative tuning). -/
def oneCellEngine : Engine :=
  build_engine onePieceLib oneCellContainer keygen0 (some 42) "none" 0 false

/-- Bitwise OR of the masks of a placement stack (the occupancy the spec
says the engine maintains). -/
def orMasks (pls : List Placement) : ℕ :=
  pls.foldl (fun acc pl => acc ||| pl.mask) 0

/-- Each placement's mask is disjoint from the OR of the masks below it
(acc accumulates the OR of the earlier masks). -/
def StackDisjointAux : ℕ → List Placement → Prop
  | _, [] => True
  | acc, p :: rest => p.mask &&& acc = 0 ∧ StackDisjointAux (acc ||| p.mask) rest

def StackDisjoint (pls : List Placement) : Prop := StackDisjointAux 0 pls

/-- The search-state invariant carried through step_once: the cursor counts
the placements, the occupancy is the OR of the stacked masks, stacked masks
are pairwise disjoint, the frontier extends at most one depth past the
cursor, and every frontier candidate at depth i is disjoint from the
occupancy of the first i placements. -/
def EngInv (e : Engine) : Prop :=
  e.placements.length = e.cursor ∧
  e.occ_bits = orMasks e.placements ∧
  StackDisjoint e.placements ∧
  e.frontier.length ≤ e.cursor + 1 ∧
  ∀ i ch, ch ∈ e.frontier.getD i [] → ch.mask &&& orMasks (e.placements.take i) = 0

/-- The roulette oracle permutes each bucket (what random.shuffle does). -/
def OraclePerm (orc : RouletteOracle) : Prop :=
  ∀ s k l, (orc s k l).Perm l

/-- States reachable from a start state by any sequence of step_once calls,
each with any permuting roulette oracle. -/
inductive Reaches : Engine → Engine → Prop
  | refl (e : Engine) : Reaches e e
  | step (a b : Engine) (orc : RouletteOracle) (h : Reaches a b)
      (ho : OraclePerm orc) : Reaches a (step_once orc b).1

/-- The engine main() builds when the container file holds an empty cells
array: build_engine is reached with an empty valid_set because main()
performs no emptiness validation. -/
def emptyContainerEngine : Engine :=
  build_engine onePieceLib [] keygen0 none "none" 0 false

/-- Composition of two _rotations24 entries: apply inner first, then
outer.  Entry i of the result reads component q[p[i]] with sign
s[i]*t[p[i]]. -/
def compRot (outer inner : Rot) : Rot :=
  ((permGet inner.1 (permGet outer.1 0),
    permGet inner.1 (permGet outer.1 1),
    permGet inner.1 (permGet outer.1 2)),
   (getc outer.2 0 * getc inner.2 (permGet outer.1 0),
    getc outer.2 1 * getc inner.2 (permGet outer.1 1),
    getc outer.2 2 * getc inner.2 (permGet outer.1 2)))

/-- A root-exhausted stable engine state: cursor at depth 0 with an empty,
already-built frontier deque, nothing placed, an empty transposition
table, and at least one piece slot.  step_once can only re-announce
failure from such a state. -/
def RootStuck (e : Engine) : Prop :=
  e.solved = false ∧ e.dirty = false ∧ e.cursor = 0 ∧ e.placements = [] ∧
  e.frontier.getD 0 [] = [] ∧ e.frontier.length = 1 ∧ e.TT = [] ∧
  0 < e.order.length

/-- An engine whose next step (and, inductively, every later one) makes no
progress: stepping is not solved and lands in a RootStuck state. -/
def StuckInv (e : Engine) : Prop :=
  (step_once idOracle e).2.2 = false ∧ RootStuck (step_once idOracle e).1

/-- The stall window for the clock-dependence counterexample: 6 ticks. -/
def argsStall6 : SolverArgs := { argsDefault with restart_on_stall := some 6 }

theorem nat_eq_zero_iff_testBit {n : ℕ} : n = 0 ↔ ∀ i, n.testBit i = false := by
  constructor
  · rintro rfl i; exact Nat.zero_testBit i
  · intro h
    exact Nat.eq_of_testBit_eq (fun i => by simp [h i])

theorem land_lor_eq_zero {x a b : ℕ} :
    x &&& (a ||| b) = 0 ↔ (x &&& a = 0 ∧ x &&& b = 0) := by
  simp only [nat_eq_zero_iff_testBit, Nat.testBit_land, Nat.testBit_lor]
  constructor
  · intro h
    refine ⟨fun i => ?_, fun i => ?_⟩ <;> have hi := h i <;>
      cases hx : x.testBit i <;> cases ha : a.testBit i <;> cases hb : b.testBit i <;>
      simp_all
  · rintro ⟨h1, h2⟩ i
    have := h1 i
    have := h2 i
    cases hx : x.testBit i <;> cases ha : a.testBit i <;> cases hb : b.testBit i <;>
      simp_all

/-- clearBits is exactly bitwise and-not (Python occ &= ~mask). -/
theorem clearBits_eq_ldiff (a b : ℕ) : clearBits a b = Nat.ldiff a b := by
  apply Nat.eq_of_testBit_eq
  intro i
  simp only [clearBits, Nat.testBit_xor, Nat.testBit_land, Nat.testBit_ldiff]
  cases a.testBit i <;> cases b.testBit i <;> rfl

theorem clearBits_lor_self {a m : ℕ} (h : a &&& m = 0) :
    clearBits (a ||| m) m = a := by
  apply Nat.eq_of_testBit_eq
  intro i
  have hh : ¬(a.testBit i = true ∧ m.testBit i = true) := by
    intro hc
    have := (nat_eq_zero_iff_testBit.mp h) i
    simp [Nat.testBit_land, hc.1, hc.2] at this
  simp only [clearBits, Nat.testBit_xor, Nat.testBit_lor, Nat.testBit_land]
  cases ha : a.testBit i <;> cases hm : m.testBit i <;> simp_all

/-- C6 helper: the engine applies a placement by or-ing its mask and undoes
it by clearing the mask; with the disjointness the engine guarantees when
it selects candidates, the round trip restores both occupancy and stack. -/
theorem apply_place_remove_last (e : Engine) (pk : String) (o oi m : ℕ)
    (cs : List ℕ) (h : e.occ_bits &&& m = 0) :
    ((remove_last (apply_place e pk o oi m cs)).1).occ_bits = e.occ_bits ∧
    ((remove_last (apply_place e pk o oi m cs)).1).placements = e.placements := by
  unfold apply_place remove_last
  simp only [List.getLast?_concat, List.dropLast_concat]
  exact ⟨clearBits_lor_self h, trivial⟩

/-- C6 (counterexample): apply then undo does NOT restore a bitset that
already overlaps the mask: with occupancy 1 and mask 1 the round trip
yields 0. -/
theorem C6_counterexample :
    ((remove_last (apply_place { oneCellEngine with occ_bits := 1 } "A" 0 0 1 [0])).1).occ_bits ≠
      ({ oneCellEngine with occ_bits := 1 } : Engine).occ_bits := by decide

/-- C6 (amended): _apply_place (bitwise OR with the mask) followed by
_remove_last (bitwise AND with NOT mask) restores the occupancy and the
placements stack, provided the bitset is disjoint from the mask - the
precondition the engine establishes by only considering candidates with
(occ AND mask) = 0. -/
theorem C6_theorem (e : Engine) (pk : String) (o oi m : ℕ) (cs : List ℕ)
    (h : e.occ_bits &&& m = 0) :
    ((remove_last (apply_place e pk o oi m cs)).1).occ_bits = e.occ_bits ∧
    ((remove_last (apply_place e pk o oi m cs)).1).placements = e.placements :=
  apply_place_remove_last e pk o oi m cs h

theorem C6_witness :
    oneCellEngine.occ_bits &&& 7 = 0 ∧
    ((remove_last (apply_place oneCellEngine "A" 0 0 7 [0, 1, 2])).1).occ_bits =
      oneCellEngine.occ_bits :=
  ⟨by decide, (C6_theorem oneCellEngine "A" 0 0 7 [0, 1, 2] (by decide)).1⟩

/-- C7: the fifth entry of _rotations24, permutation (0,2,1) with signs
(1,1,1), is a member of the enumerated set, yet its signed-permutation
matrix has determinant -1 (a reflection): only 12 of the 24 entries are
proper rotations.  generate_transforms(False) of components.py, which
multiplies in the permutation parity, yields only determinant +1 entries.
The last conjunct grounds the matrix against _apply_rot at the failing
entry. -/
theorem C7_theorem :
    ((0,2,1),(1,1,1)) ∈ rotations24 ∧
    rotDet ((0,2,1),(1,1,1)) = -1 ∧
    (rotations24.filter (fun r => rotDet r = 1)).length = 12 ∧
    ((generate_transforms false).all (fun r => rotDet r == 1) = true) ∧
    ∀ v : Cell, apply_rot v ((0,2,1),(1,1,1)) = rotMatVec ((0,2,1),(1,1,1)) v := by
  refine ⟨by decide, by decide, by decide, by decide, ?_⟩
  intro v
  simp [apply_rot, rotMatVec, rotEntry, getc, permGet]

/-- C10: the run-control poll returns "run" when the file changed but its
JSON cannot be read or parsed, and returns the cached state when the stat
itself fails. -/
theorem C10_theorem (cache : RunctlCache) (m : ℤ) (content : Option (Option String))
    (hm : m ≠ cache.mtime) :
    (read_runctl_state ⟨some m, none⟩ cache).1 = "run" ∧
    (read_runctl_state ⟨none, content⟩ cache).1 = cache.state := by
  constructor
  · simp [read_runctl_state, hm]
  · rfl

theorem C10_witness :
    (5 : ℤ) ≠ initRunctlCache.mtime ∧
    (read_runctl_state ⟨some 5, none⟩ initRunctlCache).1 = "run" ∧
    (read_runctl_state ⟨none, some (some "pause")⟩ initRunctlCache).1 =
      initRunctlCache.state :=
  ⟨by decide,
   (C10_theorem initRunctlCache 5 (some (some "pause")) (by decide)).1,
   (C10_theorem initRunctlCache 5 (some (some "pause")) (by decide)).2⟩

/-- C4: the shuffle mode has no effect on the piece order.  SolverEngine
defines no _shuffle_order method, so build_engine's call raises
AttributeError, which its bare except swallows: for every library, seed
and opener rotation, "within-buckets" and "full" produce exactly the order
of "none". -/
theorem C4_theorem (pieces : List (String × List (List Cell))) (valid_set : List Cell)
    (keygen : KeyGen) (rng_seed : Option ℕ) (rot : ℕ) (hole4 : Bool) :
    (build_engine pieces valid_set keygen rng_seed "within-buckets" rot hole4).order =
      (build_engine pieces valid_set keygen rng_seed "none" rot hole4).order ∧
    (build_engine pieces valid_set keygen rng_seed "full" rot hole4).order =
      (build_engine pieces valid_set keygen rng_seed "none" rot hole4).order := by
  unfold build_engine
  cases rng_seed <;> constructor <;> simp only [apply_ite (Engine.order)]

/-- C5: the zobrist keys never depend on the run-supplied rng_seed.
build_engine assigns RNG_SEED only after SolverEngine.__init__ has already
drawn occ_keys and depth_keys from the stream seeded with
DEFAULT_RNG_SEED (1337) xor 0x9E3779B97F4A7C15; and for the run-supplied
seed 42 the seed the claim prescribes differs from the seed actually
used. -/
theorem C5_theorem (pieces : List (String × List (List Cell))) (valid_set : List Cell)
    (keygen : KeyGen) (seed rot : ℕ) (shuffle : String) (hole4 : Bool) :
    (build_engine pieces valid_set keygen (some seed) shuffle rot hole4).occ_keys =
      (keygen (DEFAULT_RNG_SEED ^^^ 0x9E3779B97F4A7C15)
        ((build_idx2cell valid_set).length + ((pick_order pieces).length + 1))).take
        (build_idx2cell valid_set).length ∧
    (build_engine pieces valid_set keygen (some seed) shuffle rot hole4).depth_keys =
      (keygen (DEFAULT_RNG_SEED ^^^ 0x9E3779B97F4A7C15)
        ((build_idx2cell valid_set).length + ((pick_order pieces).length + 1))).drop
        (build_idx2cell valid_set).length ∧
    (42 : ℕ) ^^^ 0x9E3779B97F4A7C15 ≠ DEFAULT_RNG_SEED ^^^ 0x9E3779B97F4A7C15 := by
  refine ⟨?_, ?_, by decide⟩ <;>
    · unfold build_engine
      simp only [apply_ite (Engine.occ_keys), apply_ite (Engine.depth_keys), ite_self]
      rfl

theorem step_once_rootStuck (orc : RouletteOracle) (e : Engine) (h : RootStuck e) :
    step_once orc e = ({ e with attempts := e.attempts + 1 }, false, false) ∧
    RootStuck ({ e with attempts := e.attempts + 1 } : Engine) := by
  obtain ⟨hs, hd, hc, hp, hf0, hf1, htt, hord⟩ := h
  have hbb : bumpBest ({ e with attempts := e.attempts + 1 } : Engine) =
      { e with attempts := e.attempts + 1 } := by
    unfold bumpBest
    rw [if_neg]
    rw [show ({ e with attempts := e.attempts + 1 } : Engine).placements = e.placements from rfl, hp]
    simp
  constructor
  · unfold step_once
    rw [show (e.dirty || e.solved) = false from by simp [hd, hs]]
    simp only [Bool.false_eq_true, if_false]
    rw [if_neg (by
      rw [show ({ e with attempts := e.attempts + 1 } : Engine).cursor = e.cursor from rfl,
        show ({ e with attempts := e.attempts + 1 } : Engine).order = e.order from rfl, hc]
      omega)]
    rw [show tt_should_prune { e with attempts := e.attempts + 1 } =
        (false, { e with attempts := e.attempts + 1 }) from by
      unfold tt_should_prune
      rw [show ({ e with attempts := e.attempts + 1 } : Engine).TT = e.TT from rfl, htt]
      rfl]
    simp only [Bool.false_eq_true, if_false]
    rw [if_neg (by
      rw [show ({ e with attempts := e.attempts + 1 } : Engine).cursor = e.cursor from rfl,
        show ({ e with attempts := e.attempts + 1 } : Engine).order = e.order from rfl, hc]
      omega)]
    rw [if_neg (by
      rw [show ({ e with attempts := e.attempts + 1 } : Engine).frontier = e.frontier from rfl,
        show ({ e with attempts := e.attempts + 1 } : Engine).cursor = e.cursor from rfl, hc, hf1]
      omega)]
    obtain ⟨n, hn⟩ : ∃ n, ({ e with attempts := e.attempts + 1 } : Engine).order.length = n + 1 :=
      ⟨e.order.length - 1, by
        rw [show ({ e with attempts := e.attempts + 1 } : Engine).order = e.order from rfl]
        omega⟩
    rw [hn, inner_loop]
    rw [if_neg (by
      rw [show ({ e with attempts := e.attempts + 1 } : Engine).cursor = e.cursor from rfl,
        show ({ e with attempts := e.attempts + 1 } : Engine).order = e.order from rfl, hc]
      omega)]
    rw [show ({ e with attempts := e.attempts + 1 } : Engine).frontier.getD
        ({ e with attempts := e.attempts + 1 } : Engine).cursor [] = ([] : List Choice) from by
      rw [show ({ e with attempts := e.attempts + 1 } : Engine).frontier = e.frontier from rfl,
        show ({ e with attempts := e.attempts + 1 } : Engine).cursor = e.cursor from rfl, hc, hf0]]
    rw [show (({ e with attempts := e.attempts + 1 } : Engine).cursor == 0) = true from by
      rw [show ({ e with attempts := e.attempts + 1 } : Engine).cursor = e.cursor from rfl, hc]; rfl]
    rw [if_pos rfl, hbb]
  · exact ⟨hs, hd, hc, hp, hf0, hf1, htt, hord⟩

theorem stuckInv_preserved {e : Engine} (h : StuckInv e) :
    StuckInv ((step_once idOracle e).1) := by
  obtain ⟨hs, hr⟩ := h
  obtain ⟨heq, hr'⟩ := step_once_rootStuck idOracle _ hr
  exact ⟨by rw [heq], by rw [heq]; exact hr'⟩

theorem run_iter_stuck (args : SolverArgs) (ri : ℕ) (sl : String) (dt : ℕ)
    (s : RunState) (hst : ∀ bd, effective_stall_limit args bd = none)
    (hdef : s.deferred_hole4 = false) (hinv : StuckInv s.eng) :
    ∃ s', run_once_iter idOracle args ri sl dt s = Sum.inl s' ∧
      s'.deferred_hole4 = false ∧ StuckInv s'.eng ∧
      ∃ t, s'.events = s.events ++ t := by
  simp only [run_once_iter]
  rw [show (step_once idOracle s.eng).2.2 = false from hinv.1]
  rw [hdef]
  simp only [Bool.false_eq_true, false_and, if_false, Bool.false_and]
  rw [hst]
  simp only [if_false]
  refine ⟨_, rfl, rfl, stuckInv_preserved hinv, ?_⟩
  simp only []
  split
  · split
    · exact ⟨_, List.append_assoc _ _ _⟩
    · exact ⟨_, rfl⟩
  · split
    · exact ⟨_, rfl⟩
    · exact ⟨[], (List.append_nil _).symm⟩

theorem run_loop_stuck (args : SolverArgs) (ri : ℕ) (sl : String) (sched : ℕ → ℕ)
    (hst : ∀ bd, effective_stall_limit args bd = none) :
    ∀ (fuel i : ℕ) (s : RunState), s.deferred_hole4 = false → StuckInv s.eng →
      (run_once_loop idOracle args ri sl sched i fuel s).2 = none ∧
      ∃ t, (run_once_loop idOracle args ri sl sched i fuel s).1.events = s.events ++ t := by
  intro fuel
  induction fuel with
  | zero =>
    intro i s _ _
    exact ⟨rfl, [], (List.append_nil _).symm⟩
  | succ f ih =>
    intro i s hdef hinv
    obtain ⟨s', hiter, hdef', hinv', t1, ht1⟩ := run_iter_stuck args ri sl (sched i) s hst hdef hinv
    rw [run_once_loop, hiter]
    obtain ⟨h1, t2, ht2⟩ := ih (i + 1) s' hdef' hinv'
    exact ⟨h1, t1 ++ t2, by rw [ht2, ht1, List.append_assoc]⟩

theorem effective_stall_none (bd : ℕ) : effective_stall_limit argsDefault bd = none := by
  unfold effective_stall_limit argsDefault
  simp

theorem stuckInv_oneCell : StuckInv oneCellEngine := by
  constructor
  · rfl
  · refine ⟨rfl, rfl, rfl, rfl, rfl, rfl, rfl, ?_⟩
    decide

theorem stuckInv_empty : StuckInv emptyContainerEngine := by
  constructor
  · rfl
  · refine ⟨rfl, rfl, rfl, rfl, rfl, rfl, rfl, ?_⟩
    decide

/-- C1: with no stall window configured (restart_on_stall and all
depth-keyed overrides None) the attempt loop of run_once_with_engine never
returns: from the one-cell container (cell count 1, not a multiple of 4)
step_once keeps reporting (no progress, not solved) with zero placements,
no exit branch of the loop ever fires, and in particular EXHAUSTED_ROOT is
never produced, for every clock schedule and iteration bound. -/
theorem C1_theorem : ∀ (sched : ℕ → ℕ) (fuel : ℕ),
    (run_once_with_engine idOracle argsDefault 0 "42" sched fuel oneCellEngine).2 = none ∧
    (step_once idOracle oneCellEngine).2 = (false, false) ∧
    oneCellEngine.placements.length = 0 := by
  intro sched fuel
  refine ⟨?_, stuckInv_oneCell.1 ▸ ?_, rfl⟩
  · unfold run_once_with_engine
    exact (run_loop_stuck argsDefault 0 "42" sched effective_stall_none fuel 0
      (run_once_init oneCellEngine argsDefault 0 "42") rfl stuckInv_oneCell).1
  · have h := step_once_rootStuck idOracle oneCellEngine
    rw [show (step_once idOracle oneCellEngine).2 =
      ((step_once idOracle oneCellEngine).2.1, (step_once idOracle oneCellEngine).2.2) from rfl]
    rw [stuckInv_oneCell.1]
    rfl

/-- C3: an empty cells array is not rejected: main() performs no
validation, builds the engine over the empty lattice, and
run_once_with_engine begins the attempt, emitting its initial progress
event (run 0, seed label "default", 0 of 1 pieces placed); with the
default configuration the attempt loop then never exits - no
InvalidContainer error exists anywhere in the driver. -/
theorem C3_theorem : ∀ (sched : ℕ → ℕ) (fuel : ℕ),
    (run_once_with_engine idOracle argsDefault 0 "default" sched fuel
        emptyContainerEngine).2 = none ∧
    (run_once_with_engine idOracle argsDefault 0 "default" sched fuel
        emptyContainerEngine).1.events.head? =
      some ⟨0, "default", 0, 0, 1, 0, 0⟩ := by
  intro sched fuel
  have h := run_loop_stuck argsDefault 0 "default" sched effective_stall_none fuel 0
    (run_once_init emptyContainerEngine argsDefault 0 "default") rfl stuckInv_empty
  refine ⟨h.1, ?_⟩
  obtain ⟨t, ht⟩ := h.2
  unfold run_once_with_engine
  rw [ht]
  rfl

set_option maxHeartbeats 8000000 in
/-- C2 (counterexample): two runs of the very same attempt configuration -
same container, piece library, seed 42, shuffle "none", opener rotation 0,
hole4 off, 6-tick stall window - but with different wall-clock behavior
(6 ticks per loop iteration versus 1) both finish EXHAUSTED_ROOT yet emit
different progress-event sequences: emission times and the attempts and
attempts_per_sec values depend on the clock, which the claim does not fix. -/
theorem C2_counterexample :
    (run_once_with_engine idOracle argsStall6 0 "42" (fun _ => 6) 7 oneCellEngine).1.events ≠
      (run_once_with_engine idOracle argsStall6 0 "42" (fun _ => 1) 7 oneCellEngine).1.events ∧
    (run_once_with_engine idOracle argsStall6 0 "42" (fun _ => 6) 7 oneCellEngine).2 =
      some "exhausted_root" ∧
    (run_once_with_engine idOracle argsStall6 0 "42" (fun _ => 1) 7 oneCellEngine).2 =
      some "exhausted_root" := by
  refine ⟨by decide, by decide, by decide⟩

/-- C2 (amended): determinism holds once the omitted inputs are fixed too.
The attempt's entire observable behavior - its progress-event sequence and
its outcome - is a function of exactly the container, piece library,
getrandbits stream, rng seed, shuffle mode, opener rotation, hole4 flag,
driver options, run index, seed label, roulette draws and the wall-clock
schedule: two runs that agree on the roulette oracle and the clock
schedule (on top of the configuration the claim lists) are identical. -/
theorem C2_theorem (pieces : List (String × List (List Cell))) (valid_set : List Cell)
    (kg : KeyGen) (seed : Option ℕ) (shuffle : String) (rot : ℕ) (h4 : Bool)
    (args : SolverArgs) (ri : ℕ) (sl : String) (orc₁ orc₂ : RouletteOracle)
    (sched₁ sched₂ : ℕ → ℕ) (fuel : ℕ) (horc : orc₁ = orc₂) (hsched : sched₁ = sched₂) :
    run_once_with_engine orc₁ args ri sl sched₁ fuel
        (build_engine pieces valid_set kg seed shuffle rot h4) =
      run_once_with_engine orc₂ args ri sl sched₂ fuel
        (build_engine pieces valid_set kg seed shuffle rot h4) := by
  subst horc
  subst hsched
  rfl

theorem C2_witness :
    (idOracle = idOracle ∧ (fun _ : ℕ => 1) = (fun _ : ℕ => 1)) ∧
    run_once_with_engine idOracle argsStall6 0 "42" (fun _ => 1) 3
        (build_engine onePieceLib oneCellContainer keygen0 (some 42) "none" 0 false) =
      run_once_with_engine idOracle argsStall6 0 "42" (fun _ => 1) 3
        (build_engine onePieceLib oneCellContainer keygen0 (some 42) "none" 0 false) :=
  ⟨⟨rfl, rfl⟩,
   C2_theorem onePieceLib oneCellContainer keygen0 (some 42) "none" 0 false argsStall6 0 "42"
     idOracle idOracle (fun _ => 1) (fun _ => 1) 3 rfl rfl⟩

theorem pyLt_irrefl : ∀ a : List Char, pyCharListLt a a = false := by
  intro a
  induction a with
  | nil => rfl
  | cons x xs ih => simp [pyCharListLt, lt_irrefl, ih]

theorem pyLt_trans : ∀ a b c : List Char, pyCharListLt a b = true →
    pyCharListLt b c = true → pyCharListLt a c = true := by
  intro a
  induction a with
  | nil =>
    intro b c hab hbc
    cases b <;> cases c <;> simp_all [pyCharListLt]
  | cons x xs ih =>
    intro b c hab hbc
    cases b with
    | nil => simp [pyCharListLt] at hab
    | cons y ys =>
      cases c with
      | nil => simp [pyCharListLt] at hbc
      | cons z zs =>
        simp only [pyCharListLt] at hab hbc ⊢
        rcases lt_trichotomy x y with h | h | h
        · rcases lt_trichotomy y z with h' | h' | h'
          · rw [if_pos (lt_trans h h')]
          · subst h'; rw [if_pos h]
          · rw [if_neg (asymm h'), if_pos h'] at hbc; exact absurd hbc (by simp)
        · subst h
          simp only [lt_irrefl, if_false] at hab
          rcases lt_trichotomy x z with h' | h' | h'
          · rw [if_pos h']
          · subst h'
            simp only [lt_irrefl, if_false] at hbc ⊢
            exact ih _ _ hab hbc
          · rw [if_neg (asymm h'), if_pos h'] at hbc; exact absurd hbc (by simp)
        · rw [if_neg (asymm h), if_pos h] at hab; exact absurd hab (by simp)

theorem pyLt_trichotomy : ∀ a b : List Char,
    a = b ∨ pyCharListLt a b = true ∨ pyCharListLt b a = true := by
  intro a
  induction a with
  | nil => intro b; cases b <;> simp [pyCharListLt]
  | cons x xs ih =>
    intro b
    cases b with
    | nil => simp [pyCharListLt]
    | cons y ys =>
      rcases lt_trichotomy x y with h | h | h
      · exact Or.inr (Or.inl (by simp [pyCharListLt, h]))
      · subst h
        rcases ih ys with h' | h' | h'
        · exact Or.inl (by rw [h'])
        · exact Or.inr (Or.inl (by simp [pyCharListLt, lt_irrefl, h']))
        · exact Or.inr (Or.inr (by simp [pyCharListLt, lt_irrefl, h']))
      · exact Or.inr (Or.inr (by simp [pyCharListLt, h]))

theorem string_eq_of_data (s t : String) (h : s.data = t.data) : s = t := by
  cases s; cases t; exact congrArg String.mk (by simpa using h)

theorem foldl_min_mem : ∀ (xs : List ℤ) (x : ℤ), xs.foldl min x ∈ x :: xs := by
  intro xs
  induction xs with
  | nil => intro x; simp
  | cons y ys ih =>
    intro x
    have h := ih (min x y)
    rcases List.mem_cons.mp h with h' | h'
    · rcases min_choice x y with hm | hm <;> rw [List.foldl_cons, h', hm] <;> simp
    · simp [List.foldl_cons, List.mem_cons.mpr (Or.inr (List.mem_cons.mpr (Or.inr h')))]

theorem foldl_min_le : ∀ (xs : List ℤ) (x : ℤ), ∀ y ∈ x :: xs, xs.foldl min x ≤ y := by
  intro xs
  induction xs with
  | nil => intro x y hy; simp at hy; simp [hy]
  | cons z zs ih =>
    intro x y hy
    rw [List.foldl_cons]
    rcases List.mem_cons.mp hy with h' | h'
    · rw [h']
      exact le_trans (ih (min x z) _ (List.mem_cons_self _ _)) (min_le_left _ _)
    · rcases List.mem_cons.mp h' with h'' | h''
      · rw [h'']
        exact le_trans (ih (min x z) _ (List.mem_cons_self _ _)) (min_le_right _ _)
      · exact ih (min x z) y (List.mem_cons_of_mem _ h'')

theorem pymin_mem {l : List ℤ} (h : l ≠ []) : pymin l ∈ l := by
  cases l with
  | nil => exact absurd rfl h
  | cons x xs => exact foldl_min_mem xs x

theorem pymin_le {l : List ℤ} : ∀ y ∈ l, pymin l ≤ y := by
  cases l with
  | nil => intro y hy; simp at hy
  | cons x xs => exact foldl_min_le xs x

theorem pymin_perm {l₁ l₂ : List ℤ} (h : l₁.Perm l₂) : pymin l₁ = pymin l₂ := by
  cases l₁ with
  | nil => rw [← h.nil_eq]
  | cons x xs =>
    cases l₂ with
    | nil => exact absurd h.symm.nil_eq (by simp)
    | cons y ys =>
      exact le_antisymm
        (pymin_le _ (h.mem_iff.mpr (pymin_mem (by simp))))
        (pymin_le _ (h.mem_iff.mp (pymin_mem (by simp))))

theorem foldl_min_sub (t : ℤ) : ∀ (xs : List ℤ) (x : ℤ),
    (xs.map (fun v => v - t)).foldl min (x - t) = xs.foldl min x - t := by
  intro xs
  induction xs with
  | nil => intro x; rfl
  | cons y ys ih =>
    intro x
    simp only [List.map_cons, List.foldl_cons]
    rw [min_sub_sub_right, ih]

theorem pymin_map_sub {l : List ℤ} (t : ℤ) (h : l ≠ []) :
    pymin (l.map (fun v => v - t)) = pymin l - t := by
  cases l with
  | nil => exact absurd rfl h
  | cons x xs => exact foldl_min_sub t xs x

theorem sortCells_congr {l₁ l₂ : List Cell} (h : l₁.Perm l₂) :
    sortCells l₁ = sortCells l₂ :=
  List.eq_of_perm_of_sorted
    ((List.perm_insertionSort cellLeR l₁).trans
      (h.trans (List.perm_insertionSort cellLeR l₂).symm))
    (List.sorted_insertionSort cellLeR l₁)
    (List.sorted_insertionSort cellLeR l₂)

theorem getc_apply_rot (v : Cell) (i : Rot) (j : ℕ) :
    getc (apply_rot v i) j = getc i.2 j * getc v (permGet i.1 j) := by
  by_cases h0 : j = 0
  · subst h0; rfl
  by_cases h1 : j = 1
  · subst h1; rfl
  · simp [getc, permGet, apply_rot, h0, h1]

theorem apply_rot_comp (v : Cell) (o i : Rot) :
    apply_rot (apply_rot v i) o = apply_rot v (compRot o i) := by
  show (o.2.1 * getc (apply_rot v i) (permGet o.1 0),
        o.2.2.1 * getc (apply_rot v i) (permGet o.1 1),
        o.2.2.2 * getc (apply_rot v i) (permGet o.1 2)) =
       (getc o.2 0 * getc i.2 (permGet o.1 0) * getc v (permGet i.1 (permGet o.1 0)),
        getc o.2 1 * getc i.2 (permGet o.1 1) * getc v (permGet i.1 (permGet o.1 1)),
        getc o.2 2 * getc i.2 (permGet o.1 2) * getc v (permGet i.1 (permGet o.1 2)))
  rw [getc_apply_rot v i (permGet o.1 0), getc_apply_rot v i (permGet o.1 1),
    getc_apply_rot v i (permGet o.1 2)]
  show (o.2.1 * _, o.2.2.1 * _, o.2.2.2 * _) = (o.2.1 * _ * _, o.2.2.1 * _ * _, o.2.2.2 * _ * _)
  simp [mul_assoc]

theorem compRot_mem : ∀ o ∈ rotations24, ∀ i ∈ rotations24,
    compRot o i ∈ rotations24 := by decide

theorem compRot_surj : ∀ rb ∈ rotations24, ∀ s ∈ rotations24,
    ∃ r ∈ rotations24, compRot r rb = s := by decide

theorem getc_sub3 (a b : Cell) (p : ℕ) :
    getc (a.1 - b.1, a.2.1 - b.2.1, a.2.2 - b.2.2) p = getc a p - getc b p := by
  simp only [getc]
  split_ifs <;> rfl

theorem apply_rot_sub3 (a b : Cell) (r : Rot) :
    apply_rot (a.1 - b.1, a.2.1 - b.2.1, a.2.2 - b.2.2) r =
      ((apply_rot a r).1 - (apply_rot b r).1,
       (apply_rot a r).2.1 - (apply_rot b r).2.1,
       (apply_rot a r).2.2 - (apply_rot b r).2.2) := by
  simp only [apply_rot, getc_sub3, mul_sub]

theorem pyStrLt_irrefl (s : String) : pyStrLt s s = false := pyLt_irrefl s.data

theorem pyStrLt_trans {a b c : String} (h1 : pyStrLt a b = true)
    (h2 : pyStrLt b c = true) : pyStrLt a c = true := pyLt_trans _ _ _ h1 h2

theorem pyStrLt_trichotomy (a b : String) :
    a = b ∨ pyStrLt a b = true ∨ pyStrLt b a = true := by
  rcases pyLt_trichotomy a.data b.data with h | h | h
  · exact Or.inl (string_eq_of_data _ _ h)
  · exact Or.inr (Or.inl h)
  · exact Or.inr (Or.inr h)

theorem canonFoldSpec (cells : List Cell) : ∀ (rots : List Rot) (b : CanonRes),
    ∃ m, rots.foldl (canonStep cells) (some b) = some m ∧
      (m = b ∨ ∃ r ∈ rots, m = canonCandidate cells r) ∧
      pyStrLt b.str m.str = false ∧
      ∀ r ∈ rots, pyStrLt (canonCandidate cells r).str m.str = false := by
  intro rots
  induction rots with
  | nil =>
    intro b
    exact ⟨b, rfl, Or.inl rfl, pyStrLt_irrefl _, by simp⟩
  | cons r rs ih =>
    intro b
    have hstep : canonStep cells (some b) r =
        some (if pyStrLt (canonCandidate cells r).str b.str then canonCandidate cells r
              else b) := by
      simp only [canonStep]
      split_ifs <;> rfl
    rw [List.foldl_cons, hstep]
    by_cases hlt : pyStrLt (canonCandidate cells r).str b.str = true
    · rw [if_pos hlt]
      obtain ⟨m, hfold, hmem, hble, hall⟩ := ih (canonCandidate cells r)
      refine ⟨m, hfold, ?_, ?_, ?_⟩
      · rcases hmem with h | ⟨r', hr', h⟩
        · exact Or.inr ⟨r, List.mem_cons_self _ _, h⟩
        · exact Or.inr ⟨r', List.mem_cons_of_mem _ hr', h⟩
      · refine Bool.eq_false_iff.mpr fun hc => ?_
        exact absurd (pyStrLt_trans hlt hc) (Bool.eq_false_iff.mp hble)
      · intro r' hr'
        rcases List.mem_cons.mp hr' with h | h
        · rw [h]; exact hble
        · exact hall r' h
    · rw [if_neg hlt]
      obtain ⟨m, hfold, hmem, hble, hall⟩ := ih b
      refine ⟨m, hfold, ?_, hble, ?_⟩
      · rcases hmem with h | ⟨r', hr', h⟩
        · exact Or.inl h
        · exact Or.inr ⟨r', List.mem_cons_of_mem _ hr', h⟩
      · intro r' hr'
        rcases List.mem_cons.mp hr' with h | h
        · rw [h]
          refine Bool.eq_false_iff.mpr fun hc => ?_
          rcases pyStrLt_trichotomy (canonCandidate cells r).str b.str with he | hl | hl
          · rw [he] at hc
            exact absurd hc (Bool.eq_false_iff.mp hble)
          · exact absurd hl (by simpa using hlt)
          · exact absurd (pyStrLt_trans hl hc) (Bool.eq_false_iff.mp hble)
        · exact hall r' h

theorem canonicalize_spec (cells : List Cell) :
    ∃ m, canonicalize_cells cells = some m ∧
      (∃ r ∈ rotations24, m = canonCandidate cells r) ∧
      ∀ r ∈ rotations24, pyStrLt (canonCandidate cells r).str m.str = false := by
  have hrot : rotations24 = ((0,1,2),((1:ℤ),(1:ℤ),(1:ℤ))) :: rotations24.tail := by rfl
  obtain ⟨m, hfold, hmem, hble, hall⟩ :=
    canonFoldSpec cells rotations24.tail (canonCandidate cells ((0,1,2),(1,1,1)))
  refine ⟨m, ?_, ?_, ?_⟩
  · rw [canonicalize_cells, hrot, List.foldl_cons]
    exact hfold
  · rcases hmem with h | ⟨r, hr, h⟩
    · exact ⟨((0,1,2),(1,1,1)), by rw [hrot]; exact List.mem_cons_self _ _, h⟩
    · exact ⟨r, by rw [hrot]; exact List.mem_cons_of_mem _ hr, h⟩
  · intro r hr
    rw [hrot] at hr
    rcases List.mem_cons.mp hr with h | h
    · rw [h]; exact hble
    · exact hall r h

theorem canonCandidate_best (L : List Cell) (r : Rot) :
    (canonCandidate L r).best = normSort (L.map (fun c => apply_rot c r)) := rfl

theorem canonCandidate_str (L : List Cell) (r : Rot) :
    (canonCandidate L r).str = serializeCells ((canonCandidate L r).best) := rfl

theorem normSort_perm {l₁ l₂ : List Cell} (h : l₁.Perm l₂) : normSort l₁ = normSort l₂ := by
  unfold normSort
  rw [pymin_perm (h.map (fun d => d.1)), pymin_perm (h.map (fun d => d.2.1)),
    pymin_perm (h.map (fun d => d.2.2))]
  exact sortCells_congr (h.map _)

theorem pymin_proj_sub (l : List Cell) (hl : l ≠ []) (t : Cell) (f : Cell → ℤ)
    (hf : ∀ c : Cell, f (c.1 - t.1, c.2.1 - t.2.1, c.2.2 - t.2.2) = f c - f t) :
    pymin ((l.map (fun c => ((c.1 - t.1, c.2.1 - t.2.1, c.2.2 - t.2.2) : Cell))).map f) =
      pymin (l.map f) - f t := by
  have h1 : (l.map (fun c => ((c.1 - t.1, c.2.1 - t.2.1, c.2.2 - t.2.2) : Cell))).map f =
      (l.map f).map (fun v => v - f t) := by
    rw [List.map_map, List.map_map]
    exact congrArg (fun g => List.map g l) (funext fun c => hf c)
  rw [h1, pymin_map_sub (f t) (by simpa using hl)]

theorem normSort_trans_sub (l : List Cell) (hl : l ≠ []) (t : Cell) :
    normSort (l.map (fun c => ((c.1 - t.1, c.2.1 - t.2.1, c.2.2 - t.2.2) : Cell))) =
      normSort l := by
  unfold normSort
  rw [pymin_proj_sub l hl t (fun d => d.1) (fun c => rfl),
    pymin_proj_sub l hl t (fun d => d.2.1) (fun c => rfl),
    pymin_proj_sub l hl t (fun d => d.2.2) (fun c => rfl)]
  rw [List.map_map]
  refine congrArg sortCells (congrArg (fun g => List.map g l) (funext fun c => ?_))
  show ((c.1 - t.1) - _, (c.2.1 - t.2.1) - _, (c.2.2 - t.2.2) - _) = _
  refine Prod.ext ?_ (Prod.ext ?_ ?_) <;> simp

theorem map_rot_normalized (L : List Cell) (rb r : Rot) (m1 m2 m3 : ℤ) :
    ((L.map (fun c => apply_rot c rb)).map
        (fun c => ((c.1 - m1, c.2.1 - m2, c.2.2 - m3) : Cell))).map
      (fun c => apply_rot c r) =
    (L.map (fun c => apply_rot c (compRot r rb))).map
      (fun c => ((c.1 - (apply_rot (m1, m2, m3) r).1,
                  c.2.1 - (apply_rot (m1, m2, m3) r).2.1,
                  c.2.2 - (apply_rot (m1, m2, m3) r).2.2) : Cell)) := by
  rw [List.map_map, List.map_map, List.map_map]
  refine congrArg (fun g => List.map g L) (funext fun c => ?_)
  show apply_rot
      ((apply_rot c rb).1 - m1, (apply_rot c rb).2.1 - m2, (apply_rot c rb).2.2 - m3) r = _
  have h1 := apply_rot_sub3 (apply_rot c rb) (m1, m2, m3) r
  exact h1.trans (by rw [apply_rot_comp]; rfl)

theorem candidate_shift (L : List Cell) (hL : L ≠ []) (rb r : Rot) :
    (canonCandidate (canonCandidate L rb).best r).best =
      (canonCandidate L (compRot r rb)).best := by
  rw [canonCandidate_best, canonCandidate_best, canonCandidate_best]
  have hLne : L.map (fun c => apply_rot c (compRot r rb)) ≠ [] := by simpa using hL
  have hs : (normSort (L.map (fun c => apply_rot c rb))).Perm
      ((L.map (fun c => apply_rot c rb)).map
        (fun c =>
          ((c.1 - pymin ((L.map (fun c => apply_rot c rb)).map (fun d => d.1)),
            c.2.1 - pymin ((L.map (fun c => apply_rot c rb)).map (fun d => d.2.1)),
            c.2.2 - pymin ((L.map (fun c => apply_rot c rb)).map (fun d => d.2.2))) : Cell))) :=
    List.perm_insertionSort _ _
  have hperm := hs.map (fun c => apply_rot c r)
  rw [map_rot_normalized] at hperm
  rw [normSort_perm hperm, normSort_trans_sub _ hLne]

/-- C9: canonicalization is idempotent - re-running _canonicalize_cells on
the canonical cell list yields the same canonical serialization string. -/
theorem C9_theorem (cells : List Cell) (h : cells ≠ []) :
    canonStr (canonList cells) = canonStr cells := by
  obtain ⟨mL, hL, ⟨rb, hrb, hLr⟩, hminL⟩ := canonicalize_spec cells
  obtain ⟨mB, hB, ⟨r1, hr1, hBr⟩, hminB⟩ := canonicalize_spec (canonList cells)
  have hlist : canonList cells = (canonCandidate cells rb).best := by
    unfold canonList; rw [hL, hLr]
  have hcs1 : canonStr (canonList cells) = mB.str := by unfold canonStr; rw [hB]
  have hcs2 : canonStr cells = mL.str := by unfold canonStr; rw [hL]
  rw [hcs1, hcs2]
  have hshift1 : mB.str = (canonCandidate cells (compRot r1 rb)).str := by
    rw [hBr, canonCandidate_str, hlist, candidate_shift cells h rb r1, ← canonCandidate_str]
  obtain ⟨r2, hr2, hcomp2⟩ := compRot_surj rb hrb rb hrb
  have hshift2 : (canonCandidate (canonList cells) r2).str = mL.str := by
    rw [canonCandidate_str, hlist, candidate_shift cells h rb r2, hcomp2,
      ← canonCandidate_str, ← hLr]
  have hd1 : pyStrLt mB.str mL.str = false := by
    rw [hshift1]
    exact hminL _ (compRot_mem r1 hr1 rb hrb)
  have hd2 : pyStrLt mL.str mB.str = false := by
    rw [← hshift2]
    exact hminB r2 hr2
  rcases pyStrLt_trichotomy mB.str mL.str with he | hl | hl
  · exact he
  · exact absurd hl (by simp [hd1])
  · exact absurd hl (by simp [hd2])

theorem C9_witness :
    ([((0:ℤ),(1:ℤ),(0:ℤ)), ((1:ℤ),(0:ℤ),(0:ℤ))] : List Cell) ≠ [] ∧
    canonStr (canonList [((0:ℤ),(1:ℤ),(0:ℤ)), ((1:ℤ),(0:ℤ),(0:ℤ))]) =
      canonStr [((0:ℤ),(1:ℤ),(0:ℤ)), ((1:ℤ),(0:ℤ),(0:ℤ))] :=
  ⟨by decide, C9_theorem _ (by decide)⟩

theorem orMasks_hoist : ∀ (l : List Placement) (acc : ℕ),
    l.foldl (fun a pl => a ||| pl.mask) acc = acc ||| orMasks l := by
  intro l
  induction l with
  | nil => intro acc; simp [orMasks]
  | cons p rest ih =>
    intro acc
    simp only [orMasks, List.foldl_cons] at *
    rw [ih (acc ||| p.mask), ih (0 ||| p.mask), Nat.zero_or, Nat.or_assoc]

theorem orMasks_cons (p : Placement) (l : List Placement) :
    orMasks (p :: l) = p.mask ||| orMasks l := by
  simp only [orMasks, List.foldl_cons]
  rw [orMasks_hoist, Nat.zero_or]
  rfl

theorem orMasks_append (l₁ l₂ : List Placement) :
    orMasks (l₁ ++ l₂) = orMasks l₁ ||| orMasks l₂ := by
  simp only [orMasks, List.foldl_append]
  rw [orMasks_hoist]
  rfl

theorem orMasks_single (p : Placement) : orMasks [p] = p.mask := by
  simp [orMasks]

theorem sdjAux_append_iff : ∀ (l : List Placement) (acc : ℕ) (p : Placement),
    StackDisjointAux acc (l ++ [p]) ↔
      StackDisjointAux acc l ∧ p.mask &&& (acc ||| orMasks l) = 0 := by
  intro l
  induction l with
  | nil =>
    intro acc p
    simp [StackDisjointAux, orMasks]
  | cons q rest ih =>
    intro acc p
    rw [List.cons_append]
    show (q.mask &&& acc = 0 ∧ StackDisjointAux (acc ||| q.mask) (rest ++ [p])) ↔ _
    rw [ih, orMasks_cons, ← Nat.or_assoc,
      show StackDisjointAux acc (q :: rest) =
        (q.mask &&& acc = 0 ∧ StackDisjointAux (acc ||| q.mask) rest) from rfl]
    tauto

theorem sdjAux_take : ∀ (l : List Placement) (acc : ℕ) (n : ℕ),
    StackDisjointAux acc l → StackDisjointAux acc (l.take n) := by
  intro l
  induction l with
  | nil => intro acc n h; simpa [List.take_nil] using h
  | cons p rest ih =>
    intro acc n h
    cases n with
    | zero => exact trivial
    | succ m => exact ⟨h.1, ih (acc ||| p.mask) m h.2⟩

theorem sdj_append (l : List Placement) (p : Placement)
    (h : StackDisjoint l) (hd : p.mask &&& orMasks l = 0) :
    StackDisjoint (l ++ [p]) := by
  unfold StackDisjoint at *
  rw [sdjAux_append_iff]
  exact ⟨h, by rwa [Nat.zero_or]⟩

theorem sdj_dropLast (l : List Placement) (h : StackDisjoint l) :
    StackDisjoint l.dropLast := by
  rw [List.dropLast_eq_take]
  exact sdjAux_take l 0 _ h

theorem sdj_last (l : List Placement) (p : Placement)
    (h : StackDisjoint (l ++ [p])) : p.mask &&& orMasks l = 0 := by
  unfold StackDisjoint at h
  rw [sdjAux_append_iff] at h
  have := h.2
  rwa [Nat.zero_or] at this

theorem mem_getD_dropLast {α : Type} {l : List (List α)} {i : ℕ} {x : α}
    (h : x ∈ (l.dropLast).getD i []) : x ∈ l.getD i [] := by
  by_cases hi : i < l.dropLast.length
  · rw [List.getD_eq_getElem _ _ hi, List.getElem_dropLast] at h
    rwa [List.getD_eq_getElem _ _
      (lt_of_lt_of_le hi (by rw [List.length_dropLast]; omega))]
  · rw [List.getD_eq_default _ _ (le_of_not_lt hi)] at h
    simp at h

theorem mem_getD_set {α : Type} {l : List (List α)} {j : ℕ} {v : List α} {i : ℕ} {x : α}
    (h : x ∈ (l.set j v).getD i []) : (i = j ∧ x ∈ v) ∨ x ∈ l.getD i [] := by
  rw [List.getD_eq_getElem?_getD, List.getElem?_set] at h
  by_cases hij : j = i
  · subst hij
    rw [if_pos rfl] at h
    by_cases hj : j < l.length
    · rw [if_pos hj] at h
      exact Or.inl ⟨rfl, by simpa using h⟩
    · rw [if_neg hj] at h
      simp at h
  · rw [if_neg hij, ← List.getD_eq_getElem?_getD] at h
    exact Or.inr h

theorem mem_getD_append_last {α : Type} {l : List (List α)} {v : List α} {i : ℕ} {x : α}
    (h : x ∈ (l ++ [v]).getD i []) : x ∈ l.getD i [] ∨ (i = l.length ∧ x ∈ v) := by
  rw [List.getD_eq_getElem?_getD, List.getElem?_append] at h
  by_cases hi : i < l.length
  · rw [if_pos hi, ← List.getD_eq_getElem?_getD] at h
    exact Or.inl h
  · rw [if_neg hi] at h
    by_cases he : i = l.length
    · subst he
      simp at h
      exact Or.inr ⟨rfl, by simpa using h⟩
    · have : 1 ≤ i - l.length := by omega
      rw [show ([v] : List (List α))[i - l.length]? = none from
        List.getElem?_eq_none (by simpa using this)] at h
      simp at h

theorem considerChoice_mask {e : Engine} {occ : ℕ} {ar : Option (ℕ × ℕ)}
    {an : List ℕ} {o oi m : ℕ} {ci : List ℕ} {pc : PreChoice}
    (h : considerChoice e occ ar an o oi m ci = some pc) : pc.mask = m := by
  simp only [considerChoice] at h
  split_ifs at h <;> rw [← Option.some.inj h]

theorem core_sound (e : Engine) (pk : String) :
    ∀ pc ∈ (build_choices_core e pk).1, e.occ_bits &&& pc.mask = 0 := by
  intro pc hpc
  simp only [build_choices_core] at hpc
  split at hpc
  · -- fallback branch (phase1 empty)
    rw [List.mem_flatMap] at hpc
    obtain ⟨idx, _, hin⟩ := hpc
    split at hin
    · simp at hin
    · split at hin
      · simp at hin
      · split at hin
        · simp at hin
        · rw [List.mem_filterMap] at hin
          obtain ⟨f, _, hsome⟩ := hin
          split_ifs at hsome with hg
          rw [considerChoice_mask hsome]
          simpa using hg
  · -- phase1 branch
    split at hpc
    · split at hpc
      · split at hpc
        · simp at hpc
        · rw [List.mem_filterMap] at hpc
          obtain ⟨f, _, hsome⟩ := hpc
          split_ifs at hsome with hg
          rw [considerChoice_mask hsome]
          simpa using hg
      · simp at hpc
    · simp at hpc

theorem rank_sound (orc : RouletteOracle) (ho : OraclePerm orc) (e : Engine)
    (pk : String) (choices : List PreChoice) :
    ∀ c ∈ (rank_and_cap orc e pk choices).1, ∃ pc ∈ choices, c.mask = pc.mask := by
  intro c hc
  simp only [rank_and_cap] at hc
  split at hc
  · simp at hc
  · rw [List.mem_map] at hc
    obtain ⟨d, hd, hdc⟩ := hc
    have hcm : c.mask = d.mask := by rw [← hdc]
    have hmem : ∀ {L : List Deco} {k : ℕ}, d ∈ (List.insertionSort decoLeR L).take k → d ∈ L :=
      fun h => (List.perm_insertionSort decoLeR _).mem_iff.mp (List.mem_of_mem_take h)
    have hddeco : d ∈ List.map (fun pc : PreChoice =>
        (⟨pc.score_expo, pc.dist_score, tcGet e.try_counts (pk, pc.origin_idx, pc.ori_idx),
          pc.origin_idx, pc.ori_idx, pc.mask, pc.cells_idx⟩ : Deco)) choices := by
      split at hd
      · rw [List.mem_flatMap] at hd
        obtain ⟨key, _, hdo⟩ := hd
        have h1 := (ho _ key _).mem_iff.mp hdo
        exact hmem (List.mem_filter.mp h1).1
      · exact hmem hd
    rw [List.mem_map] at hddeco
    obtain ⟨pc, hpc, hdpc⟩ := hddeco
    refine ⟨pc, hpc, ?_⟩
    rw [hcm, ← hdpc]

theorem bits_sound (orc : RouletteOracle) (ho : OraclePerm orc) (e : Engine)
    (pk : String) :
    ∀ c ∈ (build_choices_bits orc e pk).1, c.mask &&& e.occ_bits = 0 := by
  intro c hc
  simp only [build_choices_bits] at hc
  obtain ⟨pc, hpc, hmask⟩ := rank_sound orc ho _ pk _ c hc
  have h0 := core_sound e pk pc hpc
  rw [hmask, Nat.land_comm]
  exact h0

theorem EngInv_fields (e1 e0 : Engine) (h : EngInv e0)
    (hpl : e1.placements = e0.placements) (hocc : e1.occ_bits = e0.occ_bits)
    (hcur : e1.cursor = e0.cursor) (hfr : e1.frontier = e0.frontier) : EngInv e1 := by
  unfold EngInv at *
  rw [hpl, hocc, hcur, hfr]
  exact h

theorem bump_inv {e : Engine} (h : EngInv e) : EngInv (bumpBest e) := by
  unfold bumpBest
  split
  · exact EngInv_fields _ e h rfl rfl rfl rfl
  · exact h

theorem ttp_inv {e : Engine} (h : EngInv e) : EngInv (tt_should_prune e).2 := by
  simp only [tt_should_prune]
  split
  · split
    · exact EngInv_fields _ e h rfl rfl rfl rfl
    · exact h
  · exact h

theorem ttr_inv {e : Engine} (h : EngInv e) : EngInv (tt_record e) := by
  exact EngInv_fields _ e h rfl rfl rfl rfl

theorem land_orMasks_take_mono {m : ℕ} (pl : List Placement) {i j : ℕ} (hj : j ≤ i)
    (h : m &&& orMasks (pl.take i) = 0) : m &&& orMasks (pl.take j) = 0 := by
  have h1 : pl.take i = pl.take j ++ (pl.take i).drop j := by
    conv_lhs => rw [← List.take_append_drop j (pl.take i)]
    rw [List.take_take, min_eq_left hj]
  rw [h1, orMasks_append] at h
  exact (land_lor_eq_zero.mp h).1

theorem pop_inv (e0 e1 : Engine) (h : EngInv e0) (hc : e0.cursor ≠ 0)
    (hcur : e1.cursor = e0.cursor - 1)
    (hocc : e1.occ_bits = e0.occ_bits)
    (hpl : e1.placements = e0.placements)
    (hlen : e1.frontier.length ≤ e0.cursor)
    (hfr : ∀ i x, x ∈ e1.frontier.getD i [] → x ∈ e0.frontier.getD i []) :
    EngInv (remove_last e1).1 := by
  obtain ⟨hc1, hc2, hc3, hc4, hc5⟩ := h
  have hne : e0.placements ≠ [] := by
    intro hx
    rw [hx] at hc1
    simp at hc1
    omega
  have hsplit : e0.placements =
      e0.placements.dropLast ++ [e0.placements.getLast hne] :=
    (List.dropLast_append_getLast hne).symm
  simp only [remove_last, hpl, List.getLast?_eq_getLast _ hne]
  refine ⟨?_, ?_, ?_, ?_, ?_⟩
  · show (e0.placements.dropLast).length = e1.cursor
    rw [List.length_dropLast, hc1, hcur]
  · show clearBits e1.occ_bits (e0.placements.getLast hne).mask =
      orMasks e0.placements.dropLast
    have hdisj : (e0.placements.getLast hne).mask &&& orMasks e0.placements.dropLast = 0 := by
      have h3 := hc3
      rw [hsplit] at h3
      exact sdj_last _ _ h3
    have horm : orMasks e0.placements =
        orMasks e0.placements.dropLast ||| (e0.placements.getLast hne).mask := by
      conv_lhs => rw [hsplit]
      rw [orMasks_append, orMasks_single]
    rw [hocc, hc2, horm]
    exact clearBits_lor_self (by rwa [Nat.land_comm] at hdisj)
  · show StackDisjoint e0.placements.dropLast
    exact sdj_dropLast _ hc3
  · show e1.frontier.length ≤ e1.cursor + 1
    omega
  · intro i ch hch
    show ch.mask &&& orMasks (e0.placements.dropLast.take i) = 0
    have hold := hc5 i ch (hfr i ch hch)
    rw [List.dropLast_eq_take, List.take_take]
    exact land_orMasks_take_mono _ (min_le_left _ _) hold

theorem place_inv (e0 e2 : Engine) (h : EngInv e0) (pk : String) (c : Choice)
    (hcmem : c ∈ e0.frontier.getD e0.cursor [])
    (hpl : e2.placements =
      e0.placements ++ [⟨pk, c.origin_idx, c.ori_idx, c.mask, c.cells_idx⟩])
    (hocc : e2.occ_bits = e0.occ_bits ||| c.mask)
    (hcur : e2.cursor = e0.cursor + 1)
    (hflen : e2.frontier.length = e0.frontier.length)
    (hfsub : ∀ i x, x ∈ e2.frontier.getD i [] → x ∈ e0.frontier.getD i []) :
    EngInv e2 := by
  obtain ⟨hc1, hc2, hc3, hc4, hc5⟩ := h
  have hdisj : c.mask &&& orMasks e0.placements = 0 := by
    have := hc5 e0.cursor c hcmem
    rwa [← hc1, List.take_length] at this
  refine ⟨?_, ?_, ?_, ?_, ?_⟩
  · rw [hpl, List.length_append, hc1, hcur]
    rfl
  · rw [hpl, orMasks_append, orMasks_single, hocc, hc2]
  · rw [hpl]
    exact sdj_append _ _ hc3 hdisj
  · rw [hflen, hcur]
    omega
  · intro i ch hch
    have hin := hfsub i ch hch
    by_cases hi : i ≤ e0.placements.length
    · rw [hpl, List.take_append_of_le_length hi]
      exact hc5 i ch hin
    · exfalso
      have : e0.frontier.length ≤ i := by
        rw [hc1] at hi
        omega
      rw [List.getD_eq_default _ _ this] at hin
      simp at hin

theorem bits_proj (orc : RouletteOracle) (e : Engine) (pk : String) :
    (build_choices_bits orc e pk).2.placements = e.placements ∧
    (build_choices_bits orc e pk).2.occ_bits = e.occ_bits ∧
    (build_choices_bits orc e pk).2.cursor = e.cursor ∧
    (build_choices_bits orc e pk).2.frontier = e.frontier := by
  simp only [build_choices_bits, build_choices_core, rank_and_cap]
  split <;> exact ⟨rfl, rfl, rfl, rfl⟩

theorem build_inv (orc : RouletteOracle) (ho : OraclePerm orc) (e : Engine)
    (h : EngInv e) (hlen : e.frontier.length ≤ e.cursor) :
    EngInv (build_frontier_for_depth orc e e.cursor) := by
  unfold build_frontier_for_depth
  split
  · exact h
  obtain ⟨hp, ho2, hcu, hfr⟩ := bits_proj orc e (e.order.getD e.cursor "")
  obtain ⟨hc1, hc2, hc3, hc4, hc5⟩ := h
  refine ⟨?_, ?_, ?_, ?_, ?_⟩
  · show (build_choices_bits orc e _).2.placements.length =
      (build_choices_bits orc e _).2.cursor
    rw [hp, hcu, hc1]
  · show (build_choices_bits orc e _).2.occ_bits =
      orMasks (build_choices_bits orc e _).2.placements
    rw [hp, ho2, hc2]
  · show StackDisjoint (build_choices_bits orc e _).2.placements
    rw [hp]
    exact hc3
  · show ((build_choices_bits orc e _).2.frontier ++ _).length ≤
      (build_choices_bits orc e _).2.cursor + 1
    rw [List.length_append, hfr, hcu]
    simpa using hlen
  · intro i ch hch
    show ch.mask &&& orMasks ((build_choices_bits orc e _).2.placements.take i) = 0
    rw [hp]
    replace hch : ch ∈ ((build_choices_bits orc e (e.order.getD e.cursor "")).2.frontier ++
        [(build_choices_bits orc e (e.order.getD e.cursor "")).1]).getD i [] := hch
    rw [hfr] at hch
    rcases mem_getD_append_last hch with hold | ⟨hi, hnew⟩
    · exact hc5 i ch hold
    · have hsound := bits_sound orc ho e (e.order.getD e.cursor "") ch hnew
      rw [hc2, ← List.take_length e.placements] at hsound
      refine land_orMasks_take_mono _ ?_ hsound
      rw [hi]
      omega

theorem pop_chain_inv (e0 : Engine) (h : EngInv e0) (hc : e0.cursor ≠ 0) :
    EngInv (remove_last
      { (if e0.frontier.length > e0.cursor then { e0 with frontier := e0.frontier.dropLast }
         else e0) with
        cursor := (if e0.frontier.length > e0.cursor
          then { e0 with frontier := e0.frontier.dropLast } else e0).cursor - 1 }).1 := by
  have hc4 := h.2.2.2.1
  refine pop_inv e0 _ h hc ?_ ?_ ?_ ?_ ?_
  · split <;> rfl
  · split <;> rfl
  · split <;> rfl
  · show (if e0.frontier.length > e0.cursor then { e0 with frontier := e0.frontier.dropLast }
      else e0).frontier.length ≤ e0.cursor
    split
    · simp only [List.length_dropLast]
      omega
    · rename_i hg
      omega
  · intro i x hx
    revert hx
    show x ∈ (if e0.frontier.length > e0.cursor
        then { e0 with frontier := e0.frontier.dropLast } else e0).frontier.getD i [] → _
    split
    · exact fun hx => mem_getD_dropLast hx
    · exact fun hx => hx

theorem inner_loop_inv (orc : RouletteOracle) (ho : OraclePerm orc) :
    ∀ (fuel : ℕ) (e : Engine) (prog : Bool), EngInv e →
      EngInv (inner_loop orc fuel e prog).1 := by
  intro fuel
  induction fuel with
  | zero => intro e prog h; exact h
  | succ n ih =>
    intro e prog h
    rcases hfr : e.frontier.getD e.cursor [] with _ | ⟨c, _ | ⟨c2, rest⟩⟩ <;>
      simp only [inner_loop, hfr]
    · -- empty deque at the cursor: solved check, then backtrack or stop
      split
      · exact EngInv_fields _ _ (bump_inv h) rfl rfl rfl rfl
      · split
        · exact bump_inv h
        · rename_i hcz
          exact bump_inv (ttr_inv (pop_chain_inv e h (by simpa using hcz)))
    · -- forced singleton: place, advance, maybe rebuild, recurse
      split
      · exact EngInv_fields _ _ (bump_inv h) rfl rfl rfl rfl
      · refine ih _ true ?_
        split
        · rename_i hg
          refine build_inv orc ho _ (place_inv e _ h _ c ?_ rfl rfl rfl ?_ ?_) hg
          · rw [hfr]; exact List.mem_cons_self _ _
          · show (e.frontier.set e.cursor []).length = e.frontier.length
            simp
          · intro i x hx
            replace hx : x ∈ (e.frontier.set e.cursor []).getD i [] := hx
            rcases mem_getD_set hx with ⟨_, hmem⟩ | hold
            · simp at hmem
            · exact hold
        · refine place_inv e _ h _ c ?_ rfl rfl rfl ?_ ?_
          · rw [hfr]; exact List.mem_cons_self _ _
          · show (e.frontier.set e.cursor []).length = e.frontier.length
            simp
          · intro i x hx
            replace hx : x ∈ (e.frontier.set e.cursor []).getD i [] := hx
            rcases mem_getD_set hx with ⟨_, hmem⟩ | hold
            · simp at hmem
            · exact hold
    · -- branching node: place the first choice and leave the rest
      split
      · exact EngInv_fields _ _ (bump_inv h) rfl rfl rfl rfl
      · refine bump_inv (place_inv e _ h _ c ?_ rfl rfl rfl ?_ ?_)
        · rw [hfr]; exact List.mem_cons_self _ _
        · show (e.frontier.set e.cursor (c2 :: rest)).length = e.frontier.length
          simp
        · intro i x hx
          replace hx : x ∈ (e.frontier.set e.cursor (c2 :: rest)).getD i [] := hx
          rcases mem_getD_set hx with ⟨hi, hmem⟩ | hold
          · rw [hi, hfr]
            exact List.mem_cons_of_mem _ hmem
          · exact hold

theorem step_once_inv (orc : RouletteOracle) (ho : OraclePerm orc) (e : Engine)
    (h : EngInv e) : EngInv (step_once orc e).1 := by
  have h1 : EngInv { e with attempts := e.attempts + 1 } :=
    EngInv_fields _ e h rfl rfl rfl rfl
  simp only [step_once]
  split
  · exact h
  · split
    · exact EngInv_fields _ _ (bump_inv h1) rfl rfl rfl rfl
    · have h2 := ttp_inv h1
      split
      · split
        · exact h2
        · rename_i hcz
          exact pop_chain_inv _ h2 (by simpa using hcz)
      · split
        · exact EngInv_fields _ _ (bump_inv h2) rfl rfl rfl rfl
        · refine inner_loop_inv orc ho _ _ false ?_
          split
          · rename_i hg
            exact build_inv orc ho _ h2 hg
          · exact h2

theorem engineInit_inv (pieces : List (String × List (List Cell)))
    (valid_set : List Cell) (keygen : KeyGen) :
    EngInv (engineInit pieces valid_set keygen) := by
  refine ⟨rfl, rfl, trivial, by simp [engineInit], ?_⟩
  intro i ch hch
  simp [engineInit] at hch

theorem reaches_inv {start e : Engine} (hs : EngInv start) (h : Reaches start e) :
    EngInv e := by
  induction h with
  | refl => exact hs
  | step b orc hr ho ih => exact step_once_inv orc ho b ih

/-- C8: for every engine state reachable from a freshly constructed
SolverEngine by step_once calls (each with a shuffle oracle that permutes
its bucket, as random.shuffle does), the occupancy bitmask equals the
bitwise OR of the masks of the placements currently on the stack. -/
theorem C8_theorem (pieces : List (String × List (List Cell))) (valid_set : List Cell)
    (keygen : KeyGen) (e : Engine)
    (h : Reaches (engineInit pieces valid_set keygen) e) :
    e.occ_bits = orMasks e.placements :=
  (reaches_inv (engineInit_inv pieces valid_set keygen) h).2.1

theorem C8_witness :
    (step_once idOracle (engineInit onePieceLib oneCellContainer keygen0)).1.occ_bits =
      orMasks (step_once idOracle (engineInit onePieceLib oneCellContainer keygen0)).1.placements :=
  C8_theorem onePieceLib oneCellContainer keygen0 _
    (Reaches.step _ _ idOracle (Reaches.refl _) (fun _ _ l => List.Perm.refl l))
